import Mathlib

/-!
Shallow embedding of the blk-mq dispatch core of block/blk-mq.c and
block/blk-mq.h (multi-queue block I/O subsystem), together with theorems
settling the specification claims about it.

Conventions of the embedding:
* `struct request` becomes the structure `request`; only the fields the
  verified functions touch are carried (`tag`, `internal_tag`, the
  REQ_ATOM_STARTED / REQ_ATOM_COMPLETE atomic flags, `deadline`,
  `timeout`, `errors`).  Finalisation of a request
  (`__blk_mq_complete_request` / `blk_mq_end_request`) is observed through
  the counter `finalizations`.
* the driver tag bitmap (`tags->bitmap_tags`) becomes a free list of tag
  numbers; acquiring pops the head, releasing pushes the number back.
* the device driver's `queue_rq` hook becomes an oracle
  `driver : Nat → driver_ret` giving the submission outcome per request id.
* kernel linked lists become `List`; `list_splice_init(a, b)` prepends `a`
  to `b`, `list_splice_tail_init(a, b)` appends.
* unsigned machine arithmetic is `Nat` with an explicit `% 2 ^ 32`
  where a multiplication could overflow (the EWMA update).
* blocking primitives (`wait_event`, `synchronize_rcu`) and the
  freeze/quiesce protocol are modelled as a labelled transition system
  `qstep` whose guards express when the blocked call may return.
-/

/-- Outcome of the driver `queue_rq` hook: the `BLK_MQ_RQ_QUEUE_*`
return values seen by `blk_mq_dispatch_rq_list`. -/
inductive driver_ret : Type where
  | ok : driver_ret
  | busy : driver_ret
  | dev_busy : driver_ret
  | error : driver_ret
deriving DecidableEq, Repr

/-- Return values of the device timeout handler (`enum blk_eh_timer_return`). -/
inductive blk_eh_timer_return : Type where
  | handled : blk_eh_timer_return
  | reset_timer : blk_eh_timer_return
  | not_handled : blk_eh_timer_return
deriving DecidableEq, Repr

/-- The fields of `struct request` used by the verified code paths.
`tag = -1` means no driver tag is held, `internal_tag = -1` means no
scheduler tag (no I/O scheduler attached), matching the C sentinel values.
`started`/`complete` are the REQ_ATOM_STARTED / REQ_ATOM_COMPLETE bits of
`rq->atomic_flags`.  `finalizations` counts how many times the request has
been handed to `__blk_mq_complete_request`/`blk_mq_end_request`. -/
structure request : Type where
  id : Nat
  tag : Int
  internal_tag : Int
  started : Bool
  complete : Bool
  deadline : Nat
  timeout : Nat
  errors : Int
  finalizations : Nat
deriving DecidableEq, Repr

/-- The driver tag table of a hardware queue (`struct blk_mq_tags`):
capacity `nr_tags` and the lookup array `rqs` (entries may be NULL). -/
structure blk_mq_tags : Type where
  nr_tags : Nat
  rqs : List (Option Nat)
  rqs_len : rqs.length = nr_tags

/-- blk-mq.c `blk_mq_tag_to_rq`: `if (tag < tags->nr_tags) return
tags->rqs[tag]; return NULL;`.  The in-bounds access is total by the
`rqs_len` field. -/
def blk_mq_tag_to_rq (tags : blk_mq_tags) (tag : Nat) : Option Nat :=
  if h : tag < tags.nr_tags then
    tags.rqs.get ⟨tag, by rw [tags.rqs_len]; exact h⟩
  else
    none

/-- blk-mq.c `blk_mq_update_dispatch_busy` with
`BLK_MQ_DISPATCH_BUSY_EWMA_WEIGHT = 8` and
`BLK_MQ_DISPATCH_BUSY_EWMA_FACTOR = 4`.  `elevator` is
`hctx->queue->elevator != NULL` (in which case the estimate is not
maintained and the function returns at once).  `ewma` is a C
`unsigned int`, so the multiplication is reduced modulo `2 ^ 32`. -/
def blk_mq_update_dispatch_busy (elevator : Bool) (dispatch_busy : Nat)
    (busy : Bool) : Nat :=
  if elevator then dispatch_busy
  else
    let ewma := dispatch_busy
    if ewma = 0 ∧ busy = false then ewma
    else
      let ewma := ewma * (8 - 1) % 2 ^ 32
      let ewma := (ewma + (if busy then 2 ^ 4 else 0)) % 2 ^ 32
      ewma / 8

/-- blk-timeout.c `blk_mark_rq_complete`:
`test_and_set_bit(REQ_ATOM_COMPLETE, &rq->atomic_flags)` — returns the old
value of the COMPLETE bit and sets it. -/
def blk_mark_rq_complete (rq : request) : Bool × request :=
  (rq.complete, { rq with complete := true })

/-- blk-timeout.c `blk_clear_rq_complete`: clears the COMPLETE bit. -/
def blk_clear_rq_complete (rq : request) : request :=
  { rq with complete := false }

/-- blk-mq.c `__blk_mq_complete_request`: the finalisation path (scheduler
completion hook, stats, then `softirq_done_fn`/`blk_mq_end_request`).  The
embedding observes it through the `finalizations` counter. -/
def __blk_mq_complete_request (rq : request) : request :=
  { rq with finalizations := rq.finalizations + 1 }

/-- blk-mq.c `blk_mq_complete_request`: fault-injection check
(`blk_should_fake_timeout`, passed in as `fake_timeout`), then
`if (!blk_mark_rq_complete(rq)) { rq->errors = error;
__blk_mq_complete_request(rq, false); }`. -/
def blk_mq_complete_request (fake_timeout : Bool) (error : Int)
    (rq : request) : request :=
  if fake_timeout then rq
  else
    let p := blk_mark_rq_complete rq
    if p.1 = false then __blk_mq_complete_request { p.2 with errors := error }
    else p.2

/-- Claim C10: `blk_mq_tag_to_rq` returns NULL when `tag ≥ nr_tags` and
otherwise returns exactly the entry stored at index `tag` of the `rqs`
array; the access is in bounds (witnessed by `List.get?` returning
`some`). -/
theorem blk_mq_tag_to_rq_safe (tags : blk_mq_tags) (tag : Nat) :
    (tags.nr_tags ≤ tag → blk_mq_tag_to_rq tags tag = none) ∧
    (tag < tags.nr_tags →
      tags.rqs.get? tag = some (blk_mq_tag_to_rq tags tag)) := by
  constructor
  · intro h
    unfold blk_mq_tag_to_rq
    rw [dif_neg (by omega)]
  · intro h
    unfold blk_mq_tag_to_rq
    rw [dif_pos h]
    exact List.get?_eq_get (by rw [tags.rqs_len]; exact h)

/-- Witness for C10 at a concrete two-entry tag table. -/
theorem blk_mq_tag_to_rq_safe_witness :
    (blk_mq_tag_to_rq ⟨2, [some 7, none], rfl⟩ 5 = none) ∧
    (([some 7, none] : List (Option Nat)).get? 1 =
      some (blk_mq_tag_to_rq ⟨2, [some 7, none], rfl⟩ 1)) :=
  ⟨(blk_mq_tag_to_rq_safe ⟨2, [some 7, none], rfl⟩ 5).1 (by decide),
   (blk_mq_tag_to_rq_safe ⟨2, [some 7, none], rfl⟩ 1).2 (by decide)⟩

/-- When no elevator is attached and the previous estimate is in the
reachable range (at most 16), the update computes exactly the EWMA formula
`(ewma * (W - 1) + (busy ? K : 0)) / W` with `W = 8`, `K = 16`, with no
wraparound. -/
theorem blk_mq_update_dispatch_busy_eq (d : Nat) (b : Bool) (hd : d ≤ 16) :
    blk_mq_update_dispatch_busy false d b
      = (d * 7 + (if b then 16 else 0)) / 8 := by
  have hm1 : d * (8 - 1) % 2 ^ 32 = d * 7 := Nat.mod_eq_of_lt (by omega)
  unfold blk_mq_update_dispatch_busy
  simp only [Bool.false_eq_true, if_false, hm1]
  have hm2 : (d * 7 + (if b = true then 2 ^ 4 else 0)) % 2 ^ 32
      = d * 7 + (if b = true then 2 ^ 4 else 0) :=
    Nat.mod_eq_of_lt (by split <;> omega)
  rw [hm2]
  split
  · next h =>
    obtain ⟨h0, hb⟩ := h
    subst h0
    simp [hb]
  · norm_num

/-- The dispatch-busy estimate can never exceed 16 (it starts at 0 and
each update maps `[0, 16]` into `[0, 16]`), so the overflow reductions in
`blk_mq_update_dispatch_busy` are inert for every reachable value. -/
theorem dispatch_busy_le_16 (e : Bool) (d : Nat) (b : Bool) (hd : d ≤ 16) :
    blk_mq_update_dispatch_busy e d b ≤ 16 := by
  cases e
  · rw [blk_mq_update_dispatch_busy_eq d b hd]
    split <;> omega
  · unfold blk_mq_update_dispatch_busy
    simpa using hd

/-- Claim C2: `blk_mq_complete_request` first test-and-sets the COMPLETE
flag; if the flag was already set the call finalises nothing, and hence
calling it twice on a request whose flag was clear finalises exactly
once. -/
theorem blk_mq_complete_request_idempotent (rq : request) (e e' : Int) :
    (rq.complete = true →
      (blk_mq_complete_request false e rq).finalizations = rq.finalizations) ∧
    (rq.complete = false →
      (blk_mq_complete_request false e'
        (blk_mq_complete_request false e rq)).finalizations =
        rq.finalizations + 1) := by
  constructor
  · intro h
    simp [blk_mq_complete_request, blk_mark_rq_complete, h]
  · intro h
    simp [blk_mq_complete_request, blk_mark_rq_complete, h,
      __blk_mq_complete_request]

/-- Witness for C2: a concrete not-yet-complete request is finalised
exactly once by two `complete` calls, and a concrete already-complete
request is not finalised. -/
theorem blk_mq_complete_request_idempotent_witness :
    ((blk_mq_complete_request false 0
        (blk_mq_complete_request false 0
          ⟨1, 0, 0, true, false, 0, 30, 0, 0⟩)).finalizations = 0 + 1) ∧
    ((blk_mq_complete_request false 0
        ⟨1, 0, 0, true, true, 0, 30, 0, 0⟩).finalizations = 0) :=
  ⟨(blk_mq_complete_request_idempotent
      ⟨1, 0, 0, true, false, 0, 30, 0, 0⟩ 0 0).2 rfl,
   (blk_mq_complete_request_idempotent
      ⟨1, 0, 0, true, true, 0, 30, 0, 0⟩ 0 0).1 rfl⟩

/-!
Software queues and the hardware queue's pending bitmap.

A hardware queue owns `ctxs`, the FIFOs (`ctx->rq_list`, holding request
ids) of its software queues indexed by `ctx->index_hw`, and `ctx_map`, the
pending bitmap (`sbitmap`) with one bit per software queue.
`sbitmap_for_each_set` visits set bits in increasing index order (the
wrap-around variant `__sbitmap_for_each_set` starts at an offset).
-/

/-- blk-mq.c `blk_mq_hctx_mark_pending`: set ctx's bit in the pending
bitmap if it is not already set (idempotent). -/
def blk_mq_hctx_mark_pending (ctx_map : List Bool) (index_hw : Nat) :
    List Bool :=
  if ctx_map.getD index_hw false = true then ctx_map
  else ctx_map.set index_hw true

/-- blk-mq.c `blk_mq_hctx_clear_pending`: `sbitmap_clear_bit`. -/
def blk_mq_hctx_clear_pending (ctx_map : List Bool) (index_hw : Nat) :
    List Bool :=
  ctx_map.set index_hw false

/-- blk-mq.c `__blk_mq_insert_req_list`: `list_add` at head or
`list_add_tail` of the software queue's `rq_list`. -/
def __blk_mq_insert_req_list (ctxs : List (List Nat)) (index_hw : Nat)
    (rqid : Nat) (at_head : Bool) : List (List Nat) :=
  ctxs.set index_hw
    (if at_head then rqid :: ctxs.getD index_hw []
     else ctxs.getD index_hw [] ++ [rqid])

/-- blk-mq.c `__blk_mq_insert_request`: insert into the software queue's
FIFO, then mark the queue pending in the hardware queue's bitmap. -/
def __blk_mq_insert_request (ctxs : List (List Nat)) (ctx_map : List Bool)
    (index_hw : Nat) (rqid : Nat) (at_head : Bool) :
    List (List Nat) × List Bool :=
  (__blk_mq_insert_req_list ctxs index_hw rqid at_head,
   blk_mq_hctx_mark_pending ctx_map index_hw)

/-- blk-mq.c `flush_busy_ctx` iterated by `sbitmap_for_each_set` over the
pairs `(rq_list, pending bit)` in index order: for every set bit, splice
the whole FIFO to the tail of the output list (`list_splice_tail_init`)
and clear the FIFO and the bit. -/
def flush_busy_ctx_go : List (List Nat × Bool) → List Nat × List (List Nat × Bool)
  | [] => ([], [])
  | (f, b) :: rest =>
    let r := flush_busy_ctx_go rest
    if b then (f ++ r.1, ([], false) :: r.2)
    else (r.1, (f, b) :: r.2)

/-- blk-mq.c `blk_mq_flush_busy_ctxs`: drain every pending software queue
of the hardware queue into one batch.  Returns the batch, the updated
FIFOs and the updated pending bitmap. -/
def blk_mq_flush_busy_ctxs (ctxs : List (List Nat)) (ctx_map : List Bool) :
    List Nat × List (List Nat) × List Bool :=
  let r := flush_busy_ctx_go (ctxs.zip ctx_map)
  (r.1, r.2.map Prod.fst, r.2.map Prod.snd)

/-- blk-mq.c `dispatch_rq_from_ctx`: pop the first request of software
queue `index_hw` (if any) and clear its pending bit when the FIFO becomes
empty.  Returns the request, the updated FIFOs and the updated bitmap. -/
def dispatch_rq_from_ctx (ctxs : List (List Nat)) (ctx_map : List Bool)
    (index_hw : Nat) : Option Nat × List (List Nat) × List Bool :=
  match ctxs.getD index_hw [] with
  | [] => (none, ctxs, ctx_map)
  | r :: rest =>
    (some r, ctxs.set index_hw rest,
     if rest = [] then blk_mq_hctx_clear_pending ctx_map index_hw else ctx_map)

/-- blk-mq.c `blk_mq_dequeue_from_ctx`, the `__sbitmap_for_each_set` walk:
visit indices from `off` wrapping around, and at every set bit run
`dispatch_rq_from_ctx`, stopping as soon as a request is obtained. -/
def dequeue_from_ctx_go (idxs : List Nat) (ctxs : List (List Nat))
    (ctx_map : List Bool) : Option Nat × List (List Nat) × List Bool :=
  match idxs with
  | [] => (none, ctxs, ctx_map)
  | i :: is =>
    if ctx_map.getD i false = true then
      match dispatch_rq_from_ctx ctxs ctx_map i with
      | (some r, c, m) => (some r, c, m)
      | (none, c, m) => dequeue_from_ctx_go is c m
    else dequeue_from_ctx_go is ctxs ctx_map

/-- blk-mq.c `blk_mq_dequeue_from_ctx`: pull exactly one request out of
the software queues, scanning the pending bitmap from `start->index_hw`
with wrap-around. -/
def blk_mq_dequeue_from_ctx (ctxs : List (List Nat)) (ctx_map : List Bool)
    (off : Nat) : Option Nat × List (List Nat) × List Bool :=
  dequeue_from_ctx_go ((List.range ctxs.length).rotate off) ctxs ctx_map

/-- blk-mq.c `blk_mq_hctx_cpu_offline`: when a CPU dies, splice its
software queue's FIFO (if non-empty) onto the tail of the hardware
queue's dispatch list and clear the pending bit. -/
def blk_mq_hctx_cpu_offline (ctxs : List (List Nat)) (ctx_map : List Bool)
    (dispatch : List Nat) (index_hw : Nat) :
    List (List Nat) × List Bool × List Nat :=
  let tmp := ctxs.getD index_hw []
  if tmp = [] then (ctxs, ctx_map, dispatch)
  else
    (ctxs.set index_hw [], blk_mq_hctx_clear_pending ctx_map index_hw,
     dispatch ++ tmp)

/-- The pending-bitmap invariant of the data model: a software queue's bit
is set exactly when its FIFO is non-empty. -/
def CtxMapInv (ctxs : List (List Nat)) (ctx_map : List Bool) : Prop :=
  ∀ i, i < ctxs.length →
    (ctx_map.getD i false = true ↔ ctxs.getD i [] ≠ [])

/-- The batch produced by the flush walk is the concatenation, in bit
order, of the FIFOs whose pending bit is set. -/
theorem flush_busy_ctx_go_fst (l : List (List Nat × Bool)) :
    (flush_busy_ctx_go l).1
      = ((l.filter (fun p => p.2)).map Prod.fst).flatten := by
  induction l with
  | nil => rfl
  | cons p rest ih =>
    obtain ⟨f, b⟩ := p
    cases b <;> simp [flush_busy_ctx_go, ih, List.filter]

/-- After the flush walk every pair holds a cleared bit. -/
theorem flush_busy_ctx_go_bits (l : List (List Nat × Bool)) :
    ∀ p ∈ (flush_busy_ctx_go l).2, p.2 = false := by
  induction l with
  | nil => intro p hp; simp [flush_busy_ctx_go] at hp
  | cons q rest ih =>
    obtain ⟨f, b⟩ := q
    intro p hp
    cases b with
    | false =>
      simp only [flush_busy_ctx_go, Bool.false_eq_true, if_false,
        List.mem_cons] at hp
      rcases hp with h | h
      · rw [h]
      · exact ih p h
    | true =>
      simp only [flush_busy_ctx_go, if_true, List.mem_cons] at hp
      rcases hp with h | h
      · rw [h]
      · exact ih p h

/-- Pointwise description of the flush walk's output pairs: a pair with a
set bit becomes `([], false)`, any other pair is untouched. -/
theorem flush_busy_ctx_go_get (l : List (List Nat × Bool)) (i : Nat) :
    (flush_busy_ctx_go l).2[i]?
      = (l[i]?).map (fun p => if p.2 then ([], false) else p) := by
  induction l generalizing i with
  | nil => rfl
  | cons q rest ih =>
    obtain ⟨f, b⟩ := q
    cases i with
    | zero => cases b <;> simp [flush_busy_ctx_go]
    | succ j => cases b <;> simp [flush_busy_ctx_go, ih j]

/-- The flush walk keeps the number of software queues unchanged. -/
theorem flush_busy_ctx_go_len (l : List (List Nat × Bool)) :
    (flush_busy_ctx_go l).2.length = l.length := by
  induction l with
  | nil => rfl
  | cons q rest ih =>
    obtain ⟨f, b⟩ := q
    cases b <;> simp [flush_busy_ctx_go, ih]

/-- Zipping commutes with positional lookup. -/
theorem zip_getElem?_of {α β : Type} (l1 : List α) (l2 : List β) (i : Nat)
    (a : α) (b : β) (h1 : l1[i]? = some a) (h2 : l2[i]? = some b) :
    (l1.zip l2)[i]? = some (a, b) := by
  induction l1 generalizing l2 i with
  | nil => simp at h1
  | cons x xs ih =>
    cases l2 with
    | nil => simp at h2
    | cons y ys =>
      cases i with
      | zero =>
        simp only [List.getElem?_cons_zero] at h1 h2
        injection h1 with h1; injection h2 with h2
        simp [List.zip_cons_cons, h1, h2]
      | succ j =>
        simp only [List.getElem?_cons_succ] at h1 h2
        simp [List.zip_cons_cons, ih ys j h1 h2]

/-- Every member list of a list of lists appears contiguously in the
flattening. -/
theorem mem_flatten_decomp {α : Type} (L : List (List α)) (f : List α)
    (h : f ∈ L) : ∃ pre suf, L.flatten = pre ++ f ++ suf := by
  induction L with
  | nil => simp at h
  | cons g rest ih =>
    rcases List.mem_cons.mp h with h | h
    · exact ⟨[], rest.flatten, by simp [h]⟩
    · obtain ⟨pre, suf, hps⟩ := ih h
      exact ⟨g ++ pre, suf, by simp [hps]⟩

/-- Claim C6: `blk_mq_flush_busy_ctxs` splices, in bit order, the entire
FIFO of every pending software queue onto the output batch; the batch
holds exactly the requests of the pending queues, afterwards every
pending bit is clear and every flushed FIFO is empty, and each FIFO
appears contiguously (hence in FIFO order) inside the batch. -/
theorem blk_mq_flush_busy_ctxs_spec (ctxs : List (List Nat))
    (ctx_map : List Bool) (_hlen : ctx_map.length = ctxs.length) :
    (blk_mq_flush_busy_ctxs ctxs ctx_map).1
        = (((ctxs.zip ctx_map).filter (fun p => p.2)).map Prod.fst).flatten ∧
    (blk_mq_flush_busy_ctxs ctxs ctx_map).1.length
        = (((ctxs.zip ctx_map).filter (fun p => p.2)).map
            (fun p => p.1.length)).sum ∧
    (∀ b ∈ (blk_mq_flush_busy_ctxs ctxs ctx_map).2.2, b = false) ∧
    (∀ i, i < ctxs.length → ctx_map[i]? = some true →
      (blk_mq_flush_busy_ctxs ctxs ctx_map).2.1[i]? = some []) ∧
    (∀ (i : Nat) (f : List Nat), ctx_map[i]? = some true → ctxs[i]? = some f →
      ∃ pre suf, (blk_mq_flush_busy_ctxs ctxs ctx_map).1 = pre ++ f ++ suf) := by
  refine ⟨flush_busy_ctx_go_fst _, ?_, ?_, ?_, ?_⟩
  · show (flush_busy_ctx_go (ctxs.zip ctx_map)).1.length = _
    rw [flush_busy_ctx_go_fst, List.length_flatten, List.map_map]
    rfl
  · intro b hb
    simp only [blk_mq_flush_busy_ctxs, List.mem_map] at hb
    obtain ⟨p, hp, hpb⟩ := hb
    rw [← hpb]
    exact flush_busy_ctx_go_bits _ p hp
  · intro i hi hset
    have hget : ctxs[i]? = some ctxs[i] := List.getElem?_eq_getElem hi
    have hz : (ctxs.zip ctx_map)[i]? = some (ctxs[i], true) :=
      zip_getElem?_of _ _ _ _ _ hget hset
    show ((flush_busy_ctx_go (ctxs.zip ctx_map)).2.map Prod.fst)[i]? = some []
    rw [List.getElem?_map, flush_busy_ctx_go_get, hz]
    rfl
  · intro i f hset hget
    have hz : (ctxs.zip ctx_map)[i]? = some (f, true) :=
      zip_getElem?_of _ _ _ _ _ hget hset
    have hmem : (f, true) ∈ (ctxs.zip ctx_map) := by
      have hlt : i < (ctxs.zip ctx_map).length := by
        by_contra hge
        rw [List.getElem?_eq_none (by omega)] at hz
        exact Option.noConfusion hz
      have he : (ctxs.zip ctx_map)[i] = (f, true) := by
        rw [List.getElem?_eq_getElem hlt] at hz
        exact Option.some.inj hz
      rw [← he]
      exact List.getElem_mem hlt
    have hmemf : (f, true) ∈ (ctxs.zip ctx_map).filter (fun p => p.2) :=
      List.mem_filter.mpr ⟨hmem, rfl⟩
    have hmf : f ∈ ((ctxs.zip ctx_map).filter (fun p => p.2)).map Prod.fst :=
      List.mem_map.mpr ⟨(f, true), hmemf, rfl⟩
    obtain ⟨pre, suf, hps⟩ := mem_flatten_decomp _ _ hmf
    refine ⟨pre, suf, ?_⟩
    show (flush_busy_ctx_go (ctxs.zip ctx_map)).1 = pre ++ f ++ suf
    rw [flush_busy_ctx_go_fst]
    exact hps

/-- Witness for C6, the spec scenario: three software queues of two
requests each, all pending; the batch has exactly six requests in FIFO
order and all bits end up clear. -/
theorem blk_mq_flush_busy_ctxs_spec_witness :
    (blk_mq_flush_busy_ctxs [[1, 2], [3, 4], [5, 6]] [true, true, true]).1
        = [1, 2, 3, 4, 5, 6] ∧
    (blk_mq_flush_busy_ctxs [[1, 2], [3, 4], [5, 6]] [true, true, true]).1.length
        = 6 ∧
    (blk_mq_flush_busy_ctxs [[1, 2], [3, 4], [5, 6]] [true, true, true]).2.2
        = [false, false, false] := by
  have h := blk_mq_flush_busy_ctxs_spec [[1, 2], [3, 4], [5, 6]]
    [true, true, true] (by decide)
  refine ⟨by rw [h.1]; decide, by rw [h.2.1]; decide, ?_⟩
  decide

/-- Positional write then read at the same (in-bounds) index. -/
theorem getD_set_self {α : Type} (l : List α) (i : Nat) (a d : α)
    (h : i < l.length) : (l.set i a).getD i d = a := by
  simp [List.getD_eq_getElem?_getD, List.getElem?_set, h]

/-- Positional write then read at a different index. -/
theorem getD_set_ne {α : Type} (l : List α) (i j : Nat) (a d : α)
    (h : i ≠ j) : (l.set i a).getD j d = l.getD j d := by
  simp [List.getD_eq_getElem?_getD, List.getElem?_set, h]

/-- A `getD` that produces a value other than the default is in bounds. -/
theorem lt_length_of_getD_ne {α : Type} (l : List α) (i : Nat) (d : α)
    (h : l.getD i d ≠ d) : i < l.length := by
  by_contra hge
  rw [List.getD_eq_getElem?_getD, List.getElem?_eq_none (by omega)] at h
  exact h rfl

/-- Inserting a request into software queue `i` preserves the
pending-bitmap invariant. -/
theorem ctx_map_inv_insert (ctxs : List (List Nat)) (ctx_map : List Bool)
    (hlen : ctx_map.length = ctxs.length) (i rqid : Nat) (at_head : Bool)
    (hi : i < ctxs.length) (hinv : CtxMapInv ctxs ctx_map) :
    CtxMapInv (__blk_mq_insert_request ctxs ctx_map i rqid at_head).1
      (__blk_mq_insert_request ctxs ctx_map i rqid at_head).2 := by
  intro j hj
  have hj' : j < ctxs.length := by
    simpa [__blk_mq_insert_request, __blk_mq_insert_req_list,
      List.length_set] using hj
  simp only [__blk_mq_insert_request, __blk_mq_insert_req_list,
    blk_mq_hctx_mark_pending]
  by_cases hij : i = j
  · subst hij
    rw [getD_set_self _ _ _ _ hi]
    constructor
    · intro _
      cases at_head <;> simp
    · intro _
      split
      · next hset => exact hset
      · exact getD_set_self _ _ _ _ (by omega)
  · rw [getD_set_ne _ _ _ _ _ hij]
    have hbit : (if ctx_map.getD i false = true then ctx_map
        else ctx_map.set i true).getD j false = ctx_map.getD j false := by
      split
      · rfl
      · exact getD_set_ne _ _ _ _ _ hij
    rw [hbit]
    exact hinv j hj'

/-- Flushing all pending software queues preserves the pending-bitmap
invariant (afterwards every bit is clear and every FIFO is empty). -/
theorem ctx_map_inv_flush (ctxs : List (List Nat)) (ctx_map : List Bool)
    (hlen : ctx_map.length = ctxs.length) (hinv : CtxMapInv ctxs ctx_map) :
    CtxMapInv (blk_mq_flush_busy_ctxs ctxs ctx_map).2.1
      (blk_mq_flush_busy_ctxs ctxs ctx_map).2.2 := by
  intro j hj
  have hjlen : j < ctxs.length := by
    simpa [blk_mq_flush_busy_ctxs, flush_busy_ctx_go_len,
      List.length_zip, hlen] using hj
  have hjm : j < ctx_map.length := by omega
  have hz : (ctxs.zip ctx_map)[j]? = some (ctxs[j], ctx_map[j]) :=
    zip_getElem?_of _ _ _ _ _ (List.getElem?_eq_getElem hjlen)
      (List.getElem?_eq_getElem hjm)
  have hfifo : (blk_mq_flush_busy_ctxs ctxs ctx_map).2.1.getD j [] = [] := by
    show ((flush_busy_ctx_go (ctxs.zip ctx_map)).2.map Prod.fst).getD j [] = []
    rw [List.getD_eq_getElem?_getD, List.getElem?_map,
      flush_busy_ctx_go_get, hz]
    cases hb : ctx_map[j] with
    | true => rfl
    | false =>
      have hemp : ctxs.getD j [] = [] := by
        by_contra hne
        have := (hinv j hjlen).mpr hne
        rw [List.getD_eq_getElem?_getD, List.getElem?_eq_getElem hjm] at this
        simp [hb] at this
      rw [List.getD_eq_getElem?_getD, List.getElem?_eq_getElem hjlen] at hemp
      simp [hemp]
  have hbit : (blk_mq_flush_busy_ctxs ctxs ctx_map).2.2.getD j false
      = false := by
    rw [List.getD_eq_getElem?_getD]
    cases hb : (blk_mq_flush_busy_ctxs ctxs ctx_map).2.2[j]? with
    | none => rfl
    | some v =>
      have hmem : v ∈ (blk_mq_flush_busy_ctxs ctxs ctx_map).2.2 := by
        have hlt : j < (blk_mq_flush_busy_ctxs ctxs ctx_map).2.2.length := by
          by_contra hge
          rw [List.getElem?_eq_none (by omega)] at hb
          exact Option.noConfusion hb
        rw [List.getElem?_eq_getElem hlt] at hb
        rw [← Option.some.inj hb]
        exact List.getElem_mem hlt
      have hv : v = false := by
        simp only [blk_mq_flush_busy_ctxs, List.mem_map] at hmem
        obtain ⟨p, hp, hpv⟩ := hmem
        rw [← hpv]
        exact flush_busy_ctx_go_bits (ctxs.zip ctx_map) p hp
      simp [hv]
  rw [hfifo, hbit]
  simp

/-- Popping one request via `dispatch_rq_from_ctx` (clearing the bit when
the FIFO empties) preserves the pending-bitmap invariant. -/
theorem ctx_map_inv_dispatch_one (ctxs : List (List Nat))
    (ctx_map : List Bool) (i : Nat)
    (hinv : CtxMapInv ctxs ctx_map) :
    CtxMapInv (dispatch_rq_from_ctx ctxs ctx_map i).2.1
      (dispatch_rq_from_ctx ctxs ctx_map i).2.2 := by
  rcases hf : ctxs.getD i [] with _ | ⟨r, rest⟩
  · simpa only [dispatch_rq_from_ctx, hf] using hinv
  · have hi : i < ctxs.length :=
      lt_length_of_getD_ne ctxs i [] (by rw [hf]; simp)
    intro j hj
    have hj' : j < ctxs.length := by
      simpa only [dispatch_rq_from_ctx, hf, List.length_set] using hj
    simp only [dispatch_rq_from_ctx, hf]
    by_cases hij : i = j
    · subst hij
      rcases hrest : rest with _ | ⟨x, xs⟩
      · simp only [if_pos rfl, if_true, blk_mq_hctx_clear_pending]
        rw [getD_set_self _ _ _ _ hi]
        have him : i < ctx_map.length := by
          by_contra hge
          have := (hinv i hi).mpr (by rw [hf]; simp)
          rw [List.getD_eq_getElem?_getD, List.getElem?_eq_none (by omega)]
            at this
          exact Bool.noConfusion this
        rw [getD_set_self _ _ _ _ him]
        simp
      · rw [if_neg (by simp)]
        rw [getD_set_self _ _ _ _ hi]
        constructor
        · intro _
          simp
        · intro _
          exact (hinv i hi).mpr (by rw [hf]; simp)
    · rw [getD_set_ne _ _ _ _ _ hij]
      have hbit : (if rest = [] then blk_mq_hctx_clear_pending ctx_map i
          else ctx_map).getD j false = ctx_map.getD j false := by
        split
        · exact getD_set_ne _ _ _ _ _ hij
        · rfl
      rw [hbit]
      exact hinv j hj'

/-- The wrap-around scan of `blk_mq_dequeue_from_ctx` preserves the
pending-bitmap invariant along the whole walk. -/
theorem ctx_map_inv_dequeue_go (idxs : List Nat) :
    ∀ ctxs ctx_map, CtxMapInv ctxs ctx_map →
      CtxMapInv (dequeue_from_ctx_go idxs ctxs ctx_map).2.1
        (dequeue_from_ctx_go idxs ctxs ctx_map).2.2 := by
  induction idxs with
  | nil => intro ctxs ctx_map hinv; simpa [dequeue_from_ctx_go] using hinv
  | cons i is ih =>
    intro ctxs ctx_map hinv
    simp only [dequeue_from_ctx_go]
    split
    · rcases hd : dispatch_rq_from_ctx ctxs ctx_map i with ⟨res, c, m⟩
      have hone := ctx_map_inv_dispatch_one ctxs ctx_map i hinv
      rw [hd] at hone
      cases res with
      | some r => simpa using hone
      | none => simpa using ih c m hone
    · exact ih ctxs ctx_map hinv

/-- The CPU-offline drain preserves the pending-bitmap invariant. -/
theorem ctx_map_inv_offline (ctxs : List (List Nat)) (ctx_map : List Bool)
    (dispatch : List Nat) (i : Nat) (hinv : CtxMapInv ctxs ctx_map) :
    CtxMapInv (blk_mq_hctx_cpu_offline ctxs ctx_map dispatch i).1
      (blk_mq_hctx_cpu_offline ctxs ctx_map dispatch i).2.1 := by
  rcases hf : ctxs.getD i [] with _ | ⟨r, rest⟩
  · simpa only [blk_mq_hctx_cpu_offline, hf, if_pos rfl] using hinv
  · have hi : i < ctxs.length :=
      lt_length_of_getD_ne ctxs i [] (by rw [hf]; simp)
    intro j hj
    have hj' : j < ctxs.length := by
      simpa only [blk_mq_hctx_cpu_offline, hf,
        if_neg (List.cons_ne_nil r rest), List.length_set] using hj
    simp only [blk_mq_hctx_cpu_offline, hf, if_neg (List.cons_ne_nil r rest),
      blk_mq_hctx_clear_pending]
    by_cases hij : i = j
    · subst hij
      rw [getD_set_self _ _ _ _ hi]
      have him : i < ctx_map.length := by
        by_contra hge
        have := (hinv i hi).mpr (by rw [hf]; simp)
        rw [List.getD_eq_getElem?_getD, List.getElem?_eq_none (by omega)]
          at this
        exact Bool.noConfusion this
      rw [getD_set_self _ _ _ _ him]
      simp
    · rw [getD_set_ne _ _ _ _ _ hij, getD_set_ne _ _ _ _ _ hij]
      exact hinv j hj'

/-- Claim C9: the pending bit of a software queue is set iff its FIFO is
non-empty (`CtxMapInv`); the invariant holds for the initial all-empty
state and is preserved by request insertion, by `blk_mq_flush_busy_ctxs`,
by the wrap-around single-request dequeue, and by the CPU-offline
drain. -/
theorem ctx_map_inv_preserved (ctxs : List (List Nat))
    (ctx_map : List Bool) (hlen : ctx_map.length = ctxs.length)
    (hinv : CtxMapInv ctxs ctx_map) :
    (∀ n : Nat, CtxMapInv (List.replicate n []) (List.replicate n false)) ∧
    (∀ (i rqid : Nat) (at_head : Bool), i < ctxs.length →
      CtxMapInv (__blk_mq_insert_request ctxs ctx_map i rqid at_head).1
        (__blk_mq_insert_request ctxs ctx_map i rqid at_head).2) ∧
    CtxMapInv (blk_mq_flush_busy_ctxs ctxs ctx_map).2.1
      (blk_mq_flush_busy_ctxs ctxs ctx_map).2.2 ∧
    (∀ off : Nat,
      CtxMapInv (blk_mq_dequeue_from_ctx ctxs ctx_map off).2.1
        (blk_mq_dequeue_from_ctx ctxs ctx_map off).2.2) ∧
    (∀ (dispatch : List Nat) (i : Nat),
      CtxMapInv (blk_mq_hctx_cpu_offline ctxs ctx_map dispatch i).1
        (blk_mq_hctx_cpu_offline ctxs ctx_map dispatch i).2.1) := by
  refine ⟨?_, ?_, ctx_map_inv_flush ctxs ctx_map hlen hinv, ?_, ?_⟩
  · intro n j hj
    rw [List.length_replicate] at hj
    rw [List.getD_eq_getElem?_getD, List.getD_eq_getElem?_getD,
      List.getElem?_replicate, List.getElem?_replicate]
    simp [hj]
  · intro i rqid at_head hi
    exact ctx_map_inv_insert ctxs ctx_map hlen i rqid at_head hi hinv
  · intro off
    exact ctx_map_inv_dequeue_go _ ctxs ctx_map hinv
  · intro dispatch i
    exact ctx_map_inv_offline ctxs ctx_map dispatch i hinv

/-- Witness for C9 at a concrete two-queue state satisfying the
invariant: one pending queue with one request, one empty queue. -/
theorem ctx_map_inv_preserved_witness :
    CtxMapInv [[5], []] [true, false] ∧
    CtxMapInv (__blk_mq_insert_request [[5], []] [true, false] 1 9 false).1
      (__blk_mq_insert_request [[5], []] [true, false] 1 9 false).2 ∧
    CtxMapInv (blk_mq_flush_busy_ctxs [[5], []] [true, false]).2.1
      (blk_mq_flush_busy_ctxs [[5], []] [true, false]).2.2 := by
  have hinv : CtxMapInv [[5], []] [true, false] := by
    intro j hj
    simp only [List.length_cons, List.length_nil] at hj
    interval_cases j <;> simp
  have h := ctx_map_inv_preserved [[5], []] [true, false] rfl hinv
  exact ⟨hinv, h.2.1 1 9 false (by norm_num), h.2.2.1⟩

/-!
The timeout scan.

`blk_mq_timeout_work` walks the started requests with
`blk_mq_check_expired` and either fires `blk_mq_rq_timed_out` (deadline
passed, COMPLETE won by test-and-set) or accumulates the minimum pending
deadline in `struct blk_mq_timeout_data`.  `jiffies` is the parameter
`now`; the wrap-safe comparisons `time_after_eq`/`time_after` become
plain `Nat` comparisons.  The device timeout handler (`ops->timeout`)
is the oracle `handler : Nat → blk_eh_timer_return`, guarded by
`has_timeout_op` (NULL hook defaults to `BLK_EH_RESET_TIMER`).
-/

/-- Modelled from the spec: `blk_add_timer` lives in block/blk-timeout.c,
which is not part of the sources; per the spec's `reset-timer` arm it
extends the deadline (`deadline = now + timeout`) and re-arms the queue
timer. -/
def blk_add_timer (now : Nat) (rq : request) : request :=
  { rq with deadline := now + rq.timeout }

/-- blk-mq.c `blk_mq_rq_timed_out`: ignore requests whose STARTED bit was
lost to a completion race; call the device timeout handler (default
`BLK_EH_RESET_TIMER` when the hook is NULL); on `handled` finalise, on
`reset_timer` re-arm the timer and clear COMPLETE, on `not_handled` leave
the request untouched. -/
def blk_mq_rq_timed_out (has_timeout_op : Bool)
    (handler : Nat → blk_eh_timer_return) (now : Nat) (rq : request) :
    request :=
  if rq.started = false then rq
  else
    let ret := if has_timeout_op then handler rq.id
               else blk_eh_timer_return.reset_timer
    match ret with
    | blk_eh_timer_return.handled => __blk_mq_complete_request rq
    | blk_eh_timer_return.reset_timer => blk_clear_rq_complete (blk_add_timer now rq)
    | blk_eh_timer_return.not_handled => rq

/-- The `struct blk_mq_timeout_data` accumulator of the scan. -/
structure blk_mq_timeout_data : Type where
  next : Nat
  next_set : Bool
deriving DecidableEq, Repr

/-- blk-mq.c `blk_mq_check_expired`: skip requests that are not STARTED;
for an expired request take the COMPLETE bit (skipping if already set) and
fire `blk_mq_rq_timed_out`; for a pending request fold its deadline into
the minimum tracked in `data`. -/
def blk_mq_check_expired (has_timeout_op : Bool)
    (handler : Nat → blk_eh_timer_return) (now : Nat) (rq : request)
    (data : blk_mq_timeout_data) : request × blk_mq_timeout_data :=
  if rq.started = false then (rq, data)
  else if rq.deadline ≤ now then
    let p := blk_mark_rq_complete rq
    if p.1 = false then (blk_mq_rq_timed_out has_timeout_op handler now p.2, data)
    else (p.2, data)
  else if data.next_set = false ∨ rq.deadline < data.next then
    (rq, { next := rq.deadline, next_set := true })
  else (rq, data)

/-- The iteration of `blk_mq_check_expired` over all requests performed by
`blk_mq_queue_tag_busy_iter` from `blk_mq_timeout_work`. -/
def blk_mq_check_expired_list (has_timeout_op : Bool)
    (handler : Nat → blk_eh_timer_return) (now : Nat) :
    List request → blk_mq_timeout_data → List request × blk_mq_timeout_data
  | [], data => ([], data)
  | rq :: rqs, data =>
    let p := blk_mq_check_expired has_timeout_op handler now rq data
    let q := blk_mq_check_expired_list has_timeout_op handler now rqs p.2
    (p.1 :: q.1, q.2)

/-- The deadlines the scan must keep waiting for: started requests whose
deadline has not yet passed. -/
def pending_deadlines (now : Nat) (rqs : List request) : List Nat :=
  (rqs.filter (fun r => r.started && decide (now < r.deadline))).map
    request.deadline

/-- The update `blk_mq_check_expired` applies to `data` when it sees one
pending deadline (`!data->next_set || time_after(data->next, deadline)`). -/
def timeout_next_fold (d : blk_mq_timeout_data) (dl : Nat) :
    blk_mq_timeout_data :=
  if d.next_set = false ∨ dl < d.next then { next := dl, next_set := true }
  else d

/-- A request that is not STARTED is skipped by the scan. -/
theorem blk_mq_check_expired_not_started (has_timeout_op : Bool)
    (handler : Nat → blk_eh_timer_return) (now : Nat) (rq : request)
    (d : blk_mq_timeout_data) (hs : rq.started = false) :
    blk_mq_check_expired has_timeout_op handler now rq d = (rq, d) := by
  unfold blk_mq_check_expired
  rw [if_pos hs]

/-- An expired request never touches the deadline accumulator. -/
theorem blk_mq_check_expired_expired_data (has_timeout_op : Bool)
    (handler : Nat → blk_eh_timer_return) (now : Nat) (rq : request)
    (d : blk_mq_timeout_data) (hs : rq.started = true)
    (he : rq.deadline ≤ now) :
    (blk_mq_check_expired has_timeout_op handler now rq d).2 = d := by
  unfold blk_mq_check_expired
  rw [if_neg (by simp [hs]), if_pos he]
  dsimp only
  split <;> rfl

/-- A started, not-yet-expired request is left untouched and only folds
its deadline into the accumulator. -/
theorem blk_mq_check_expired_pending (has_timeout_op : Bool)
    (handler : Nat → blk_eh_timer_return) (now : Nat) (rq : request)
    (d : blk_mq_timeout_data) (hs : rq.started = true)
    (hlt : now < rq.deadline) :
    blk_mq_check_expired has_timeout_op handler now rq d
      = (rq, timeout_next_fold d rq.deadline) := by
  unfold blk_mq_check_expired timeout_next_fold
  rw [if_neg (by simp [hs]), if_neg (by omega)]
  split
  · rfl
  · rfl

/-- The data accumulator of the scan is exactly the fold of the
minimum-update over the pending deadlines, in list order. -/
theorem check_expired_list_data (has_timeout_op : Bool)
    (handler : Nat → blk_eh_timer_return) (now : Nat) (rqs : List request) :
    ∀ d, (blk_mq_check_expired_list has_timeout_op handler now rqs d).2
      = (pending_deadlines now rqs).foldl timeout_next_fold d := by
  induction rqs with
  | nil => intro d; rfl
  | cons rq rqs ih =>
    intro d
    simp only [blk_mq_check_expired_list]
    by_cases hs : rq.started = true
    · by_cases he : rq.deadline ≤ now
      · have hpend : pending_deadlines now (rq :: rqs)
            = pending_deadlines now rqs := by
          simp [pending_deadlines, List.filter, hs, Nat.not_lt.mpr he]
        rw [hpend,
          blk_mq_check_expired_expired_data has_timeout_op handler now rq d
            hs he]
        exact ih d
      · have hlt : now < rq.deadline := Nat.lt_of_not_le he
        have hpend : pending_deadlines now (rq :: rqs)
            = rq.deadline :: pending_deadlines now rqs := by
          simp [pending_deadlines, List.filter, hs, hlt]
        rw [hpend,
          blk_mq_check_expired_pending has_timeout_op handler now rq d hs hlt,
          List.foldl]
        exact ih _
    · have hs' : rq.started = false := by
        cases h : rq.started
        · rfl
        · exact absurd h hs
      have hpend : pending_deadlines now (rq :: rqs)
          = pending_deadlines now rqs := by
        simp [pending_deadlines, List.filter, hs']
      rw [hpend,
        blk_mq_check_expired_not_started has_timeout_op handler now rq d hs']
      exact ih d

/-- Folding the minimum-update from an armed accumulator keeps it armed,
only ever lowers it, moves it into the folded list when it changes, and
ends below every folded deadline. -/
theorem timeout_fold_armed (P : List Nat) :
    ∀ m, ((P.foldl timeout_next_fold { next := m, next_set := true }).next_set
        = true) ∧
      ((P.foldl timeout_next_fold { next := m, next_set := true }).next = m ∨
        (P.foldl timeout_next_fold { next := m, next_set := true }).next ∈ P) ∧
      (P.foldl timeout_next_fold { next := m, next_set := true }).next ≤ m ∧
      (∀ x ∈ P,
        (P.foldl timeout_next_fold { next := m, next_set := true }).next ≤ x) := by
  induction P with
  | nil => intro m; exact ⟨rfl, Or.inl rfl, Nat.le_refl m, by intro x hx; simp at hx⟩
  | cons dl P ih =>
    intro m
    by_cases hlt : dl < m
    · have hstep : timeout_next_fold { next := m, next_set := true } dl
          = { next := dl, next_set := true } := by
        simp [timeout_next_fold, hlt]
      simp only [List.foldl, hstep]
      obtain ⟨h1, h2, h3, h4⟩ := ih dl
      refine ⟨h1, ?_, by omega, ?_⟩
      · rcases h2 with h | h
        · exact Or.inr (by simp [h])
        · exact Or.inr (by simp [h])
      · intro x hx
        rcases List.mem_cons.mp hx with h | h
        · omega
        · exact h4 x h
    · have hstep : timeout_next_fold { next := m, next_set := true } dl
          = { next := m, next_set := true } := by
        simp [timeout_next_fold, hlt]
      simp only [List.foldl, hstep]
      obtain ⟨h1, h2, h3, h4⟩ := ih m
      refine ⟨h1, ?_, h3, ?_⟩
      · rcases h2 with h | h
        · exact Or.inl h
        · exact Or.inr (by simp [h])
      · intro x hx
        rcases List.mem_cons.mp hx with h | h
        · omega
        · exact h4 x h

/-- Folding the minimum-update from the scan's unarmed initial accumulator
over a non-empty deadline list yields exactly the minimum. -/
theorem timeout_fold_min (P : List Nat) (d0 : Nat) (hne : P ≠ []) :
    ((P.foldl timeout_next_fold { next := d0, next_set := false }).next_set
        = true) ∧
    (P.foldl timeout_next_fold { next := d0, next_set := false }).next ∈ P ∧
    (∀ x ∈ P,
      (P.foldl timeout_next_fold { next := d0, next_set := false }).next ≤ x) := by
  cases P with
  | nil => exact absurd rfl hne
  | cons dl P =>
    have hstep : timeout_next_fold { next := d0, next_set := false } dl
        = { next := dl, next_set := true } := by
      simp [timeout_next_fold]
    simp only [List.foldl, hstep]
    obtain ⟨h1, h2, h3, h4⟩ := timeout_fold_armed P dl
    refine ⟨h1, ?_, ?_⟩
    · rcases h2 with h | h
      · exact by simp [h]
      · exact by simp [h]
    · intro x hx
      rcases List.mem_cons.mp hx with h | h
      · omega
      · exact h4 x h

/-- Claim C7: the timeout scan, for every STARTED request whose deadline
has passed, takes the COMPLETE bit (skipping requests already complete)
and fires the device timeout handler — finalising on `handled`, re-arming
the timer and clearing COMPLETE on `reset_timer`, leaving the request
(beyond the COMPLETE ownership bit) untouched on `not_handled`; and for
the STARTED requests not yet expired it accumulates exactly the minimum
deadline. -/
theorem blk_mq_timeout_scan_spec (handler : Nat → blk_eh_timer_return)
    (now : Nat) :
    (∀ (rq : request) (d : blk_mq_timeout_data), rq.started = true →
      rq.deadline ≤ now → rq.complete = false →
      ((handler rq.id = blk_eh_timer_return.handled →
        blk_mq_check_expired true handler now rq d
          = ({ rq with
               complete := true,
               finalizations := rq.finalizations + 1 }, d)) ∧
       (handler rq.id = blk_eh_timer_return.reset_timer →
        blk_mq_check_expired true handler now rq d
          = ({ rq with
               complete := false,
               deadline := now + rq.timeout }, d)) ∧
       (handler rq.id = blk_eh_timer_return.not_handled →
        blk_mq_check_expired true handler now rq d
          = ({ rq with complete := true }, d)))) ∧
    (∀ (rq : request) (d : blk_mq_timeout_data), rq.started = true →
      rq.deadline ≤ now → rq.complete = true →
      blk_mq_check_expired true handler now rq d = (rq, d)) ∧
    (∀ rqs : List request, pending_deadlines now rqs ≠ [] →
      ((blk_mq_check_expired_list true handler now rqs
          { next := 0, next_set := false }).2.next_set = true ∧
       (blk_mq_check_expired_list true handler now rqs
          { next := 0, next_set := false }).2.next
            ∈ pending_deadlines now rqs ∧
       ∀ x ∈ pending_deadlines now rqs,
         (blk_mq_check_expired_list true handler now rqs
            { next := 0, next_set := false }).2.next ≤ x)) := by
  refine ⟨?_, ?_, ?_⟩
  · intro rq d hs he hc
    refine ⟨?_, ?_, ?_⟩ <;> intro hh <;>
      simp [blk_mq_check_expired, blk_mark_rq_complete, blk_mq_rq_timed_out,
        __blk_mq_complete_request, blk_add_timer, blk_clear_rq_complete,
        hs, he, hc, hh]
  · intro rq d hs he hc
    cases rq
    simp only at hs hc
    subst hs
    subst hc
    simp [blk_mq_check_expired, blk_mark_rq_complete, he]
  · intro rqs hne
    rw [check_expired_list_data]
    exact timeout_fold_min (pending_deadlines now rqs) 0 hne

/-- Witness for C7: a concrete scan over one expired request (handler
reports `handled`, so it is finalised once) and two pending requests whose
minimum deadline is tracked. -/
theorem blk_mq_timeout_scan_spec_witness :
    (blk_mq_check_expired true
        (fun i => if i = 1 then blk_eh_timer_return.handled
                  else blk_eh_timer_return.not_handled) 100
        ⟨1, 0, 0, true, false, 50, 30, 0, 0⟩ { next := 0, next_set := false }
      = (⟨1, 0, 0, true, true, 50, 30, 0, 1⟩,
         { next := 0, next_set := false })) ∧
    ((blk_mq_check_expired_list true
        (fun i => if i = 1 then blk_eh_timer_return.handled
                  else blk_eh_timer_return.not_handled) 100
        [⟨1, 0, 0, true, false, 50, 30, 0, 0⟩,
         ⟨4, 0, 0, true, false, 150, 30, 0, 0⟩,
         ⟨5, 0, 0, true, false, 120, 30, 0, 0⟩]
        { next := 0, next_set := false }).2.next_set = true) ∧
    ((blk_mq_check_expired_list true
        (fun i => if i = 1 then blk_eh_timer_return.handled
                  else blk_eh_timer_return.not_handled) 100
        [⟨1, 0, 0, true, false, 50, 30, 0, 0⟩,
         ⟨4, 0, 0, true, false, 150, 30, 0, 0⟩,
         ⟨5, 0, 0, true, false, 120, 30, 0, 0⟩]
        { next := 0, next_set := false }).2.next = 120) := by
  have h := blk_mq_timeout_scan_spec
    (fun i => if i = 1 then blk_eh_timer_return.handled
              else blk_eh_timer_return.not_handled) 100
  refine ⟨(h.1 ⟨1, 0, 0, true, false, 50, 30, 0, 0⟩
      { next := 0, next_set := false } rfl (by decide) rfl).1 rfl, ?_, ?_⟩
  · exact (h.2.2 [⟨1, 0, 0, true, false, 50, 30, 0, 0⟩,
      ⟨4, 0, 0, true, false, 150, 30, 0, 0⟩,
      ⟨5, 0, 0, true, false, 120, 30, 0, 0⟩] (by decide)).1
  · have hmin := (h.2.2 [⟨1, 0, 0, true, false, 50, 30, 0, 0⟩,
      ⟨4, 0, 0, true, false, 150, 30, 0, 0⟩,
      ⟨5, 0, 0, true, false, 120, 30, 0, 0⟩] (by decide))
    have hmem := hmin.2.1
    have hle := hmin.2.2 120 (by decide)
    have : pending_deadlines 100
        [⟨1, 0, 0, true, false, 50, 30, 0, 0⟩,
         ⟨4, 0, 0, true, false, 150, 30, 0, 0⟩,
         ⟨5, 0, 0, true, false, 120, 30, 0, 0⟩] = [150, 120] := by decide
    rw [this] at hmem
    rcases List.mem_cons.mp hmem with hx | hx
    · omega
    · simpa using hx

/-!
The dispatcher: `blk_mq_dispatch_rq_list` (blk-mq.c) and its tag helpers
(blk-mq.c / blk-mq.h).

One hardware queue is modelled (`blk_mq_map_queue` returns the same hctx
for every request).  The driver tag bitmap is the free list `pool`.  The
`dispatched[]` histogram, `nr_active` shared-tag accounting, the
`hctx->tags->rqs[tag]` publication and the deferred-issue `dptr` hint are
statistics/hints with no bearing on the dispatch outcome and are not
carried.  `blk_mq_get_dispatch_budget` is `budget_ok` (constant `true`
for drivers without budget ops); `blk_mq_sched_needs_restart` reads the
BLK_MQ_S_SCHED_RESTART bit carried as `sched_restart`;
`list_empty_careful(&hctx->dispatch_wait.task_list)` is
`dispatch_wait_empty`.
-/

/-- blk-mq.c `blk_mq_get_driver_tag` (non-waiting form used by the
dispatcher): a request that already holds a driver tag succeeds at once;
otherwise a free tag is taken from the bitmap, or the call fails with
`rq->tag` left `-1`. -/
def blk_mq_get_driver_tag (pool : List Nat) (rq : request) :
    request × List Nat × Bool :=
  if rq.tag ≠ -1 then (rq, pool, true)
  else
    match pool with
    | [] => (rq, [], false)
    | t :: ts => ({ rq with tag := Int.ofNat t }, ts, true)

/-- blk-mq.h `__blk_mq_put_driver_tag`: return `rq->tag` to the bitmap
and set `rq->tag = -1`. -/
def __blk_mq_put_driver_tag (pool : List Nat) (rq : request) :
    request × List Nat :=
  ({ rq with tag := -1 }, rq.tag.toNat :: pool)

/-- blk-mq.h `blk_mq_put_driver_tag`: no-op unless the request holds a
driver tag and a scheduler tag (`internal_tag`). -/
def blk_mq_put_driver_tag (pool : List Nat) (rq : request) :
    request × List Nat :=
  if rq.tag = -1 ∨ rq.internal_tag = -1 then (rq, pool)
  else __blk_mq_put_driver_tag pool rq

/-- blk-mq.c `__blk_mq_requeue_request`: release the driver tag and
test-and-clear STARTED (the `dma_drain_size` segment bookkeeping is not
carried). -/
def __blk_mq_requeue_request (pool : List Nat) (rq : request) :
    request × List Nat :=
  let p := blk_mq_put_driver_tag pool rq
  ({ p.1 with started := false }, p.2)

/-- Result of `blk_mq_mark_tag_wait`. -/
structure tag_wait_out : Type where
  rq : request
  pool : List Nat
  got : Bool
  sched_restart : Bool
  dispatch_wait_empty : Bool
deriving DecidableEq, Repr

/-- blk-mq.c `blk_mq_mark_tag_wait`: without shared tags, set
BLK_MQ_S_SCHED_RESTART and retry the tag; with shared tags, bail out if
the hctx is already on a tag waitqueue, otherwise hook it up, retry the
tag, and unhook again on success. -/
def blk_mq_mark_tag_wait (shared sched_restart wait_empty : Bool)
    (pool : List Nat) (rq : request) : tag_wait_out :=
  if shared = false then
    let g := blk_mq_get_driver_tag pool rq
    ⟨g.1, g.2.1, g.2.2, true, wait_empty⟩
  else if wait_empty = false then ⟨rq, pool, false, sched_restart, wait_empty⟩
  else
    let g := blk_mq_get_driver_tag pool rq
    if g.2.2 then ⟨g.1, g.2.1, true, sched_restart, true⟩
    else ⟨g.1, g.2.1, false, sched_restart, false⟩

/-- The mutable locals of the dispatch loop threaded between iterations:
the tag bitmap, the restart/waitqueue bits, the `queued`/`errors`
counters, the last `queue_rq` return (`ret`) and the ids submitted to the
driver so far (in submission order). -/
structure dispatch_loop_state : Type where
  pool : List Nat
  sched_restart : Bool
  dispatch_wait_empty : Bool
  queued : Nat
  errors : Nat
  ret : driver_ret
  submitted : List Nat
deriving DecidableEq, Repr

/-- What the dispatch loop leaves behind: the candidate list as the loop
exits (`list`), the final locals, and whether the shared-tags `no_tag`
flag was raised. -/
structure dispatch_loop_out : Type where
  list : List request
  pool : List Nat
  sched_restart : Bool
  dispatch_wait_empty : Bool
  queued : Nat
  errors : Nat
  ret : driver_ret
  no_tag : Bool
  submitted : List Nat
deriving DecidableEq, Repr

/-- Lines 1247-1268 of blk-mq.c: acquire a driver tag for the head
request, falling back to `blk_mq_mark_tag_wait` on failure.  Returns the
(possibly tagged) request, the updated locals and whether a tag is now
held. -/
def acquire_driver_tag (shared : Bool) (s : dispatch_loop_state)
    (rq : request) : request × dispatch_loop_state × Bool :=
  let g := blk_mq_get_driver_tag s.pool rq
  if g.2.2 then (g.1, { s with pool := g.2.1 }, true)
  else
    let w := blk_mq_mark_tag_wait shared s.sched_restart
      s.dispatch_wait_empty g.2.1 g.1
    (w.rq,
     { s with
       pool := w.pool,
       sched_restart := w.sched_restart,
       dispatch_wait_empty := w.dispatch_wait_empty },
     w.got)

/-- The `do { ... } while (!list_empty(list))` body of
`blk_mq_dispatch_rq_list`, processing the head request `rq` with `rest`
still queued: take the budget and a driver tag (breaking out on failure
with the head pushed back), prefetch the next request's driver tag to
compute `bd.last`, submit to the driver, and handle the
accepted/busy/error outcomes — busy releases the prefetched tag, requeues
the head at the front and stops the loop. -/
def blk_mq_dispatch_loop (driver : Nat → driver_ret)
    (got_budget budget_ok shared : Bool) :
    request → List request → dispatch_loop_state → dispatch_loop_out
  | rq, rest, s =>
    if got_budget = false ∧ budget_ok = false then
      ⟨rq :: rest, s.pool, s.sched_restart, s.dispatch_wait_empty, s.queued,
       s.errors, s.ret, false, s.submitted⟩
    else
      let a := acquire_driver_tag shared s rq
      if a.2.2 = false then
        ⟨a.1 :: rest, a.2.1.pool, a.2.1.sched_restart,
         a.2.1.dispatch_wait_empty, a.2.1.queued, a.2.1.errors, a.2.1.ret,
         shared, a.2.1.submitted⟩
      else
        match rest with
        | [] =>
          match driver a.1.id with
          | driver_ret.ok =>
            ⟨[], a.2.1.pool, a.2.1.sched_restart, a.2.1.dispatch_wait_empty,
             a.2.1.queued + 1, a.2.1.errors, driver_ret.ok, false,
             a.2.1.submitted ++ [a.1.id]⟩
          | driver_ret.busy =>
            let rr := __blk_mq_requeue_request a.2.1.pool a.1
            ⟨[rr.1], rr.2, a.2.1.sched_restart, a.2.1.dispatch_wait_empty,
             a.2.1.queued, a.2.1.errors, driver_ret.busy, false,
             a.2.1.submitted ++ [a.1.id]⟩
          | driver_ret.dev_busy =>
            let rr := __blk_mq_requeue_request a.2.1.pool a.1
            ⟨[rr.1], rr.2, a.2.1.sched_restart, a.2.1.dispatch_wait_empty,
             a.2.1.queued, a.2.1.errors, driver_ret.dev_busy, false,
             a.2.1.submitted ++ [a.1.id]⟩
          | driver_ret.error =>
            ⟨[], a.2.1.pool, a.2.1.sched_restart, a.2.1.dispatch_wait_empty,
             a.2.1.queued, a.2.1.errors + 1, driver_ret.error, false,
             a.2.1.submitted ++ [a.1.id]⟩
        | nxt :: tl =>
          let gp := blk_mq_get_driver_tag a.2.1.pool nxt
          match driver a.1.id with
          | driver_ret.ok =>
            blk_mq_dispatch_loop driver got_budget budget_ok shared gp.1 tl
              { a.2.1 with
                pool := gp.2.1,
                queued := a.2.1.queued + 1,
                ret := driver_ret.ok,
                submitted := a.2.1.submitted ++ [a.1.id] }
          | driver_ret.busy =>
            let pn := blk_mq_put_driver_tag gp.2.1 gp.1
            let rr := __blk_mq_requeue_request pn.2 a.1
            ⟨rr.1 :: pn.1 :: tl, rr.2, a.2.1.sched_restart,
             a.2.1.dispatch_wait_empty, a.2.1.queued, a.2.1.errors,
             driver_ret.busy, false, a.2.1.submitted ++ [a.1.id]⟩
          | driver_ret.dev_busy =>
            let pn := blk_mq_put_driver_tag gp.2.1 gp.1
            let rr := __blk_mq_requeue_request pn.2 a.1
            ⟨rr.1 :: pn.1 :: tl, rr.2, a.2.1.sched_restart,
             a.2.1.dispatch_wait_empty, a.2.1.queued, a.2.1.errors,
             driver_ret.dev_busy, false, a.2.1.submitted ++ [a.1.id]⟩
          | driver_ret.error =>
            blk_mq_dispatch_loop driver got_budget budget_ok shared gp.1 tl
              { a.2.1 with
                pool := gp.2.1,
                errors := a.2.1.errors + 1,
                ret := driver_ret.error,
                submitted := a.2.1.submitted ++ [a.1.id] }

/-- How `blk_mq_dispatch_rq_list` reschedules itself when requests
remain: `blk_mq_run_hw_queue(hctx, true)` at once, or
`blk_mq_delay_run_hw_queue(hctx, BLK_MQ_RESOURCE_DELAY)` after 3 ms. -/
inductive restart_kind : Type where
  | no_restart : restart_kind
  | run_queue : restart_kind
  | delayed_run : restart_kind
deriving DecidableEq, Repr

/-- The observable outcome of `blk_mq_dispatch_rq_list`: its boolean
return (`progress`), the requests left on the candidate list, the
hardware queue's dispatch list, the updated busy estimate, the scheduled
rerun, and the loop statistics. -/
structure dispatch_result : Type where
  progress : Bool
  remaining : List request
  hctx_dispatch : List request
  dispatch_busy : Nat
  restart : restart_kind
  queued : Nat
  errors : Nat
  ret : driver_ret
  pool : List Nat
  submitted : List Nat
  sched_restart : Bool
deriving DecidableEq, Repr

/-- blk-mq.c `blk_mq_dispatch_rq_list`: empty batches return false at
once; otherwise the loop runs, leftover candidates are spliced onto the
front of `hctx->dispatch` with a rerun scheduled (immediate unless
SCHED_RESTART is set; delayed on `BLK_MQ_RQ_QUEUE_BUSY` with
SCHED_RESTART set) and the busy estimate is raised, returning false;
with a drained batch the busy estimate is lowered and the function
returns whether `queued + errors` is non-zero (false if the last
submission reported busy). -/
def blk_mq_dispatch_rq_list (driver : Nat → driver_ret)
    (elevator got_budget budget_ok shared sched_restart
      dispatch_wait_empty : Bool) (list : List request) (pool : List Nat)
    (hctx_dispatch : List request) (dispatch_busy : Nat) : dispatch_result :=
  match list with
  | [] =>
    ⟨false, [], hctx_dispatch, dispatch_busy, restart_kind.no_restart, 0, 0,
     driver_ret.ok, pool, [], sched_restart⟩
  | rq :: rest =>
    let o := blk_mq_dispatch_loop driver got_budget budget_ok shared rq rest
      ⟨pool, sched_restart, dispatch_wait_empty, 0, 0, driver_ret.ok, []⟩
    if o.list ≠ [] then
      let rk := if o.sched_restart = false ∨
          (o.no_tag = true ∧ o.dispatch_wait_empty = true) then
          restart_kind.run_queue
        else if o.sched_restart = true ∧ o.ret = driver_ret.busy then
          restart_kind.delayed_run
        else restart_kind.no_restart
      ⟨false, o.list, o.list ++ hctx_dispatch,
       blk_mq_update_dispatch_busy elevator dispatch_busy true, rk,
       o.queued, o.errors, o.ret, o.pool, o.submitted, o.sched_restart⟩
    else
      let db := blk_mq_update_dispatch_busy elevator dispatch_busy false
      if o.ret = driver_ret.busy ∨ o.ret = driver_ret.dev_busy then
        ⟨false, [], hctx_dispatch, db, restart_kind.no_restart, o.queued,
         o.errors, o.ret, o.pool, o.submitted, o.sched_restart⟩
      else
        ⟨o.queued + o.errors != 0, [], hctx_dispatch, db,
         restart_kind.no_restart, o.queued, o.errors, o.ret, o.pool,
         o.submitted, o.sched_restart⟩

/-- The `if (list_empty(list)) return` / `list_first_entry` split at the
top of the loop: enter the loop body on the head of a non-empty candidate
list. -/
def dispatch_loop_entry (driver : Nat → driver_ret)
    (got_budget budget_ok shared : Bool) (list : List request)
    (s : dispatch_loop_state) : dispatch_loop_out :=
  match list with
  | [] =>
    ⟨[], s.pool, s.sched_restart, s.dispatch_wait_empty, s.queued, s.errors,
     s.ret, false, s.submitted⟩
  | rq :: rest => blk_mq_dispatch_loop driver got_budget budget_ok shared rq rest s

/-- When the loop drains the whole candidate list, the last `queue_rq`
return value cannot be a busy status (a busy submission always pushes the
request back onto the list before breaking out). -/
theorem dispatch_loop_no_busy_of_nil (driver : Nat → driver_ret)
    (got_budget budget_ok shared : Bool) :
    ∀ (rest : List request) (rq : request) (s : dispatch_loop_state),
      s.ret ≠ driver_ret.busy → s.ret ≠ driver_ret.dev_busy →
      (blk_mq_dispatch_loop driver got_budget budget_ok shared rq rest s).list
          = [] →
      (blk_mq_dispatch_loop driver got_budget budget_ok shared rq rest
          s).ret ≠ driver_ret.busy ∧
      (blk_mq_dispatch_loop driver got_budget budget_ok shared rq rest
          s).ret ≠ driver_ret.dev_busy := by
  intro rest
  induction rest with
  | nil =>
    intro rq s hs1 hs2
    simp only [blk_mq_dispatch_loop]
    split
    · intro hl
      exact absurd hl (by simp)
    · split
      · intro hl
        exact absurd hl (by simp)
      · rcases hdrv : driver (acquire_driver_tag shared s rq).1.id with _ | _ | _ | _ <;>
          simp only [hdrv]
        · intro _
          exact ⟨by simp, by simp⟩
        · intro hl
          exact absurd hl (by simp)
        · intro hl
          exact absurd hl (by simp)
        · intro _
          exact ⟨by simp, by simp⟩
  | cons nxt tl ih =>
    intro rq s hs1 hs2
    rw [blk_mq_dispatch_loop]
    split
    · intro hl
      exact absurd hl (by simp)
    · dsimp only
      split
      · intro hl
        exact absurd hl (by simp)
      · rcases hdrv : driver (acquire_driver_tag shared s rq).1.id with _ | _ | _ | _ <;>
          simp only [hdrv]
        · intro hl
          exact ih _ _ (by simp) (by simp) hl
        · intro hl
          exact absurd hl (by simp)
        · intro hl
          exact absurd hl (by simp)
        · intro hl
          exact ih _ _ (by simp) (by simp) hl

/-- Counterexample to claim C1 as stated: three tagged requests, the
driver accepts the first and reports device-busy on the second; one
request was accepted (`queued = 1`), yet the dispatcher returns false. -/
theorem blk_mq_dispatch_rq_list_progress_counterexample :
    (blk_mq_dispatch_rq_list
        (fun i => if i = 2 then driver_ret.dev_busy else driver_ret.ok)
        false false true false false true
        [⟨1, 1, 1, true, false, 0, 30, 0, 0⟩,
         ⟨2, 2, 1, true, false, 0, 30, 0, 0⟩,
         ⟨3, 3, 1, true, false, 0, 30, 0, 0⟩]
        [] [] 0).queued = 1 ∧
    (blk_mq_dispatch_rq_list
        (fun i => if i = 2 then driver_ret.dev_busy else driver_ret.ok)
        false false true false false true
        [⟨1, 1, 1, true, false, 0, 30, 0, 0⟩,
         ⟨2, 2, 1, true, false, 0, 30, 0, 0⟩,
         ⟨3, 3, 1, true, false, 0, 30, 0, 0⟩]
        [] [] 0).progress = false :=
  ⟨rfl, rfl⟩

/-- Claim C1 (amended): `blk_mq_dispatch_rq_list` returns true iff at
least one request was accepted or errored AND the whole batch was
dispatched; when requests remain (busy requeue, tag or budget
exhaustion), it returns false even if earlier requests were accepted. -/
theorem blk_mq_dispatch_rq_list_progress_iff (driver : Nat → driver_ret)
    (elevator got_budget budget_ok shared sched_restart
      dispatch_wait_empty : Bool) (list : List request) (pool : List Nat)
    (hctx_dispatch : List request) (dispatch_busy : Nat) :
    (blk_mq_dispatch_rq_list driver elevator got_budget budget_ok shared
        sched_restart dispatch_wait_empty list pool hctx_dispatch
        dispatch_busy).progress = true ↔
      ((blk_mq_dispatch_rq_list driver elevator got_budget budget_ok shared
          sched_restart dispatch_wait_empty list pool hctx_dispatch
          dispatch_busy).remaining = [] ∧
       (blk_mq_dispatch_rq_list driver elevator got_budget budget_ok shared
          sched_restart dispatch_wait_empty list pool hctx_dispatch
          dispatch_busy).queued +
        (blk_mq_dispatch_rq_list driver elevator got_budget budget_ok shared
          sched_restart dispatch_wait_empty list pool hctx_dispatch
          dispatch_busy).errors ≠ 0) := by
  match list with
  | [] =>
    simp [blk_mq_dispatch_rq_list]
  | rq :: rest =>
    simp only [blk_mq_dispatch_rq_list]
    by_cases hl : (blk_mq_dispatch_loop driver got_budget budget_ok shared rq
        rest ⟨pool, sched_restart, dispatch_wait_empty, 0, 0, driver_ret.ok,
          []⟩).list = []
    · have hnb := dispatch_loop_no_busy_of_nil driver got_budget budget_ok
        shared rest rq ⟨pool, sched_restart, dispatch_wait_empty, 0, 0,
          driver_ret.ok, []⟩ (by simp) (by simp) hl
      rw [if_neg (by simp [hl])]
      rw [if_neg (by simp [hnb.1, hnb.2])]
      simp
    · rw [if_pos (by simp [hl])]
      simp [hl]

/-- Behaviour of the loop on a batch `pre ++ rq :: post` of tagged
requests where the driver accepts all of `pre` and reports busy on `rq`
(which holds a scheduler tag): the loop submits exactly `pre` and `rq`,
stops, releases `rq`'s driver tag back to the bitmap, requeues `rq` at
the front of the candidate list with `post` kept behind it in order, and
counts only `pre` as queued. -/
theorem dispatch_loop_entry_busy (driver : Nat → driver_ret)
    (got_budget shared : Bool) (rq : request) (post : List request)
    (hbusy : driver rq.id = driver_ret.busy ∨
      driver rq.id = driver_ret.dev_busy)
    (htag : rq.tag ≠ -1) (hint : rq.internal_tag ≠ -1)
    (htags_post : ∀ r ∈ post, r.tag ≠ -1) :
    ∀ (pre : List request) (s : dispatch_loop_state),
      (∀ r ∈ pre, driver r.id = driver_ret.ok) →
      (∀ r ∈ pre, r.tag ≠ -1) →
      ((dispatch_loop_entry driver got_budget true shared
          (pre ++ rq :: post) s).ret = driver rq.id ∧
       (dispatch_loop_entry driver got_budget true shared
          (pre ++ rq :: post) s).list.head?
          = some { rq with tag := -1, started := false } ∧
       (dispatch_loop_entry driver got_budget true shared
          (pre ++ rq :: post) s).list.map request.id
          = rq.id :: post.map request.id ∧
       (dispatch_loop_entry driver got_budget true shared
          (pre ++ rq :: post) s).submitted
          = s.submitted ++ pre.map request.id ++ [rq.id] ∧
       (dispatch_loop_entry driver got_budget true shared
          (pre ++ rq :: post) s).queued = s.queued + pre.length ∧
       (dispatch_loop_entry driver got_budget true shared
          (pre ++ rq :: post) s).errors = s.errors ∧
       rq.tag.toNat ∈ (dispatch_loop_entry driver got_budget true shared
          (pre ++ rq :: post) s).pool) := by
  intro pre
  induction pre with
  | nil =>
    intro s _ _
    simp only [List.nil_append, dispatch_loop_entry]
    rw [blk_mq_dispatch_loop]
    rw [if_neg (by simp)]
    have hacq : acquire_driver_tag shared s rq = (rq, s, true) := by
      simp [acquire_driver_tag, blk_mq_get_driver_tag, htag]
    dsimp only
    rw [hacq]
    rw [if_neg (by simp)]
    cases post with
    | nil =>
      rcases hbusy with hb | hb <;>
        simp [hb, __blk_mq_requeue_request, blk_mq_put_driver_tag,
          __blk_mq_put_driver_tag, htag, hint]
    | cons nxt tl =>
      have hnxt : nxt.tag ≠ -1 := htags_post nxt (by simp)
      have hgp : blk_mq_get_driver_tag s.pool nxt = (nxt, s.pool, true) := by
        simp [blk_mq_get_driver_tag, hnxt]
      rcases hbusy with hb | hb <;>
        by_cases hni : nxt.internal_tag = -1 <;>
          simp [hb, hgp, __blk_mq_requeue_request, blk_mq_put_driver_tag,
            __blk_mq_put_driver_tag, htag, hint, hni, hnxt]
  | cons p ps ih =>
    intro s hok htg
    have hpok : driver p.id = driver_ret.ok := hok p (by simp)
    have hptag : p.tag ≠ -1 := htg p (by simp)
    have hok' : ∀ r ∈ ps, driver r.id = driver_ret.ok := fun r hr =>
      hok r (List.mem_cons_of_mem _ hr)
    have htg' : ∀ r ∈ ps, r.tag ≠ -1 := fun r hr =>
      htg r (List.mem_cons_of_mem _ hr)
    simp only [List.cons_append, dispatch_loop_entry]
    rw [blk_mq_dispatch_loop]
    rw [if_neg (by simp)]
    have hacq : acquire_driver_tag shared s p = (p, s, true) := by
      simp [acquire_driver_tag, blk_mq_get_driver_tag, hptag]
    dsimp only
    rw [hacq]
    rw [if_neg (by simp)]
    have hrec := ih { s with
      queued := s.queued + 1,
      ret := driver_ret.ok,
      submitted := s.submitted ++ [p.id] } hok' htg'
    cases ps with
    | nil =>
      simp only [List.nil_append]
      have hgp : blk_mq_get_driver_tag s.pool rq = (rq, s.pool, true) := by
        simp [blk_mq_get_driver_tag, htag]
      simp only [hpok, hgp]
      simp only [List.nil_append, dispatch_loop_entry] at hrec
      obtain ⟨h1, h2, h3, h4, h5, h6, h7⟩ := hrec
      refine ⟨h1, h2, h3, ?_, ?_, h6, h7⟩
      · rw [h4]
        simp
      · rw [h5]
        simp only [List.length_cons]
        omega
    | cons q qs =>
      simp only [List.cons_append]
      have hqtag : q.tag ≠ -1 := htg' q (by simp)
      have hgp : blk_mq_get_driver_tag s.pool q = (q, s.pool, true) := by
        simp [blk_mq_get_driver_tag, hqtag]
      simp only [hpok, hgp]
      simp only [List.cons_append, dispatch_loop_entry] at hrec
      obtain ⟨h1, h2, h3, h4, h5, h6, h7⟩ := hrec
      refine ⟨h1, h2, h3, ?_, ?_, h6, h7⟩
      · rw [h4]
        simp
      · rw [h5]
        simp only [List.length_cons]
        omega

/-- Claim C3: when the driver reports busy for a request inside a
dispatch batch (all requests tagged, driver budget available, scheduler
attached to the busy request), the dispatcher releases that request's
driver tag back to the bitmap, pushes the request back onto the front of
the candidate list, stops the loop (nothing after it is submitted), and
splices every undispatched candidate — busy request first, the rest in
order — onto the hardware queue's dispatch list instead of dropping
them. -/
theorem blk_mq_dispatch_rq_list_dev_busy (driver : Nat → driver_ret)
    (elevator got_budget shared sched_restart dispatch_wait_empty : Bool)
    (pre : List request) (rq : request) (post : List request)
    (pool : List Nat) (hctx_dispatch : List request) (dispatch_busy : Nat)
    (R : dispatch_result)
    (hR : R = blk_mq_dispatch_rq_list driver elevator got_budget true shared
      sched_restart dispatch_wait_empty (pre ++ rq :: post) pool
      hctx_dispatch dispatch_busy)
    (hok : ∀ r ∈ pre, driver r.id = driver_ret.ok)
    (htags_pre : ∀ r ∈ pre, r.tag ≠ -1) (htag : rq.tag ≠ -1)
    (htags_post : ∀ r ∈ post, r.tag ≠ -1)
    (hbusy : driver rq.id = driver_ret.busy ∨
      driver rq.id = driver_ret.dev_busy)
    (hint : rq.internal_tag ≠ -1) :
    R.ret = driver rq.id ∧
    R.progress = false ∧
    R.submitted = pre.map request.id ++ [rq.id] ∧
    R.remaining.head? = some { rq with tag := -1, started := false } ∧
    R.remaining.map request.id = rq.id :: post.map request.id ∧
    R.hctx_dispatch = R.remaining ++ hctx_dispatch ∧
    rq.tag.toNat ∈ R.pool := by
  have hE := dispatch_loop_entry_busy driver got_budget shared rq post hbusy
    htag hint htags_post pre
    ⟨pool, sched_restart, dispatch_wait_empty, 0, 0, driver_ret.ok, []⟩
    hok htags_pre
  obtain ⟨h1, h2, h3, h4, h5, h6, h7⟩ := hE
  have hne : (dispatch_loop_entry driver got_budget true shared
      (pre ++ rq :: post)
      ⟨pool, sched_restart, dispatch_wait_empty, 0, 0, driver_ret.ok,
        []⟩).list ≠ [] := by
    intro h
    rw [h] at h3
    exact absurd h3 (by simp)
  subst hR
  cases pre with
  | nil =>
    simp only [List.nil_append] at h1 h2 h3 h4 h7 hne ⊢
    simp only [dispatch_loop_entry] at h1 h2 h3 h4 h7 hne
    simp only [blk_mq_dispatch_rq_list]
    rw [if_pos hne]
    exact ⟨h1, rfl, by simpa using h4, h2, h3, rfl, h7⟩
  | cons p ps =>
    simp only [List.cons_append] at h1 h2 h3 h4 h7 hne ⊢
    simp only [dispatch_loop_entry] at h1 h2 h3 h4 h7 hne
    simp only [blk_mq_dispatch_rq_list]
    rw [if_pos hne]
    exact ⟨h1, rfl, by simpa using h4, h2, h3, rfl, h7⟩

/-- Witness for C3, the spec scenario: requests 1, 2, 3 all tagged, the
driver accepts 1 and reports device-busy on 2; requests 2 (tag released,
at the front) and 3 end up on the dispatch list and the loop submitted
only 1 and 2. -/
theorem blk_mq_dispatch_rq_list_dev_busy_witness :
    (blk_mq_dispatch_rq_list
        (fun i => if i = 2 then driver_ret.dev_busy else driver_ret.ok)
        false false true false false true
        ([⟨1, 1, 1, true, false, 0, 30, 0, 0⟩] ++
          ⟨2, 2, 1, true, false, 0, 30, 0, 0⟩ ::
            [⟨3, 3, 1, true, false, 0, 30, 0, 0⟩])
        [] [] 0).ret = driver_ret.dev_busy ∧
    (blk_mq_dispatch_rq_list
        (fun i => if i = 2 then driver_ret.dev_busy else driver_ret.ok)
        false false true false false true
        ([⟨1, 1, 1, true, false, 0, 30, 0, 0⟩] ++
          ⟨2, 2, 1, true, false, 0, 30, 0, 0⟩ ::
            [⟨3, 3, 1, true, false, 0, 30, 0, 0⟩])
        [] [] 0).submitted = [1, 2] ∧
    (blk_mq_dispatch_rq_list
        (fun i => if i = 2 then driver_ret.dev_busy else driver_ret.ok)
        false false true false false true
        ([⟨1, 1, 1, true, false, 0, 30, 0, 0⟩] ++
          ⟨2, 2, 1, true, false, 0, 30, 0, 0⟩ ::
            [⟨3, 3, 1, true, false, 0, 30, 0, 0⟩])
        [] [] 0).remaining.map request.id = [2, 3] ∧
    2 ∈ (blk_mq_dispatch_rq_list
        (fun i => if i = 2 then driver_ret.dev_busy else driver_ret.ok)
        false false true false false true
        ([⟨1, 1, 1, true, false, 0, 30, 0, 0⟩] ++
          ⟨2, 2, 1, true, false, 0, 30, 0, 0⟩ ::
            [⟨3, 3, 1, true, false, 0, 30, 0, 0⟩])
        [] [] 0).pool := by
  have h := blk_mq_dispatch_rq_list_dev_busy
    (fun i => if i = 2 then driver_ret.dev_busy else driver_ret.ok)
    false false false false true
    [⟨1, 1, 1, true, false, 0, 30, 0, 0⟩]
    ⟨2, 2, 1, true, false, 0, 30, 0, 0⟩
    [⟨3, 3, 1, true, false, 0, 30, 0, 0⟩]
    [] [] 0 _ rfl (by decide) (by decide) (by decide) (by decide)
    (Or.inr (by decide)) (by decide)
  exact ⟨h.1, h.2.2.1, h.2.2.2.2.1, h.2.2.2.2.2.2⟩

/-- Claim C8: every update of the busy estimate computes
`(ewma * (W - 1) + (busy ? K : 0)) / W` with `W = 8`, `K = 16` in exact
integer arithmetic (the `unsigned int` reductions are inert for the
reachable range `ewma ≤ 16`), and after a dispatch the estimate is
updated with `busy = true` exactly when requests remained undispatched
and `busy = false` otherwise. -/
theorem blk_mq_update_dispatch_busy_spec (driver : Nat → driver_ret)
    (got_budget budget_ok shared sched_restart dispatch_wait_empty : Bool)
    (list : List request) (pool : List Nat) (hctx_dispatch : List request)
    (d : Nat) (hd16 : d ≤ 16) :
    (∀ b : Bool,
      blk_mq_update_dispatch_busy false d b
        = (d * 7 + (if b then 16 else 0)) / 8) ∧
    (list ≠ [] →
      (blk_mq_dispatch_rq_list driver false got_budget budget_ok shared
          sched_restart dispatch_wait_empty list pool hctx_dispatch
          d).dispatch_busy
        = blk_mq_update_dispatch_busy false d
            (!(blk_mq_dispatch_rq_list driver false got_budget budget_ok
                shared sched_restart dispatch_wait_empty list pool
                hctx_dispatch d).remaining.isEmpty)) := by
  refine ⟨fun b => blk_mq_update_dispatch_busy_eq d b hd16, ?_⟩
  intro hne
  match list with
  | [] => exact absurd rfl hne
  | rq :: rest =>
    simp only [blk_mq_dispatch_rq_list]
    by_cases ho : (blk_mq_dispatch_loop driver got_budget budget_ok shared
        rq rest ⟨pool, sched_restart, dispatch_wait_empty, 0, 0,
          driver_ret.ok, []⟩).list = []
    · rw [if_neg (by simp [ho])]
      split <;> simp
    · rw [if_pos (by simp [ho])]
      have hemp : (blk_mq_dispatch_loop driver got_budget budget_ok shared
          rq rest ⟨pool, sched_restart, dispatch_wait_empty, 0, 0,
            driver_ret.ok, []⟩).list.isEmpty = false := by
        cases h : (blk_mq_dispatch_loop driver got_budget budget_ok shared
            rq rest ⟨pool, sched_restart, dispatch_wait_empty, 0, 0,
              driver_ret.ok, []⟩).list with
        | nil => exact absurd h ho
        | cons x xs => rfl
      simp [hemp]

/-- Witness for C8: a concrete EWMA step and the busy update after the
accepted-then-busy dispatch scenario. -/
theorem blk_mq_update_dispatch_busy_spec_witness :
    (blk_mq_update_dispatch_busy false 2 true = (2 * 7 + 16) / 8) ∧
    ((blk_mq_dispatch_rq_list
        (fun i => if i = 2 then driver_ret.dev_busy else driver_ret.ok)
        false false true false false true
        [⟨1, 1, 1, true, false, 0, 30, 0, 0⟩,
         ⟨2, 2, 1, true, false, 0, 30, 0, 0⟩,
         ⟨3, 3, 1, true, false, 0, 30, 0, 0⟩]
        [] [] 0).dispatch_busy
      = blk_mq_update_dispatch_busy false 0
          (!(blk_mq_dispatch_rq_list
              (fun i => if i = 2 then driver_ret.dev_busy else driver_ret.ok)
              false false true false false true
              [⟨1, 1, 1, true, false, 0, 30, 0, 0⟩,
               ⟨2, 2, 1, true, false, 0, 30, 0, 0⟩,
               ⟨3, 3, 1, true, false, 0, 30, 0, 0⟩]
              [] [] 0).remaining.isEmpty)) := by
  have h1 := blk_mq_update_dispatch_busy_spec
    (fun i => if i = 2 then driver_ret.dev_busy else driver_ret.ok)
    false true false false true
    [⟨1, 1, 1, true, false, 0, 30, 0, 0⟩,
     ⟨2, 2, 1, true, false, 0, 30, 0, 0⟩,
     ⟨3, 3, 1, true, false, 0, 30, 0, 0⟩]
    [] [] 2 (by decide)
  have h2 := blk_mq_update_dispatch_busy_spec
    (fun i => if i = 2 then driver_ret.dev_busy else driver_ret.ok)
    false true false false true
    [⟨1, 1, 1, true, false, 0, 30, 0, 0⟩,
     ⟨2, 2, 1, true, false, 0, 30, 0, 0⟩,
     ⟨3, 3, 1, true, false, 0, 30, 0, 0⟩]
    [] [] 0 (by decide)
  exact ⟨h1.1 true, h2.2 (by decide)⟩

/-!
Freeze and quiesce protocol (blk-mq.c lines 129-258, 1482-1508, 866-907),
as a labelled transition system.

State: `mq_freeze_depth` (atomic counter), the `q_usage_counter` percpu
ref as `usage_killed` (atomic/dead mode after `percpu_ref_kill`) plus
`usage_count` (in-flight references), the QUEUE_FLAG_QUIESCED bit, and
the RCU/SRCU read-side dispatch sections currently past the quiesce
check (`active_dispatch`, by section id).  `blocked_alloc` counts callers
sleeping on `mq_freeze_wq`; `woken` accumulates `wake_up_all` wakeups.
Blocking calls are split into guard-carrying return events:
`freeze_wait_ret` may fire only once `percpu_ref_is_zero` holds, and
`quiesce_ret` (the `synchronize_rcu`/`synchronize_srcu` of
`blk_mq_quiesce_queue`) only once every dispatch section that observed
the pre-quiesce state has ended — no new section can be a dispatching one
while the flag is set, so the guard is emptiness of `active_dispatch`.
-/

/-- The request queue state of the freeze/quiesce protocol. -/
structure qstate : Type where
  mq_freeze_depth : Int
  usage_killed : Bool
  usage_count : Nat
  quiesced : Bool
  active_dispatch : List Nat
  next_sid : Nat
  blocked_alloc : Nat
  woken : Nat
  dispatches_started : Nat
  completions : Nat
  timeout_scans : Nat
deriving DecidableEq, Repr

/-- The events of the protocol. -/
inductive qev : Type where
  | alloc_enter : qev
  | alloc_block : qev
  | freeze_start : qev
  | freeze_wait_ret : qev
  | unfreeze : qev
  | complete_rq : qev
  | timeout_scan : qev
  | quiesce_set : qev
  | quiesce_ret : qev
  | unquiesce : qev
  | run_hw_queue_dispatch : qev
  | run_hw_queue_decline : qev
  | dispatch_end : Nat → qev
deriving DecidableEq, Repr

/-- One step of the protocol.

* `alloc_enter`/`alloc_block` — modelled from the spec: `blk_queue_enter`
  (block/blk-core.c, not among the sources) admits a request iff the
  usage counter is live (`percpu_ref_tryget_live`), and otherwise blocks
  on `mq_freeze_wq`.
* `freeze_start` — `blk_freeze_queue_start`: increment the freeze depth;
  on the 0→1 transition kill the usage counter (admission off).
* `freeze_wait_ret` — `blk_mq_freeze_queue_wait` (the tail of
  `blk_freeze_queue`) returns only when `percpu_ref_is_zero` holds.
* `unfreeze` — `blk_mq_unfreeze_queue`: decrement; at zero re-init the
  counter (admission on) and `wake_up_all(&q->mq_freeze_wq)`.
* `complete_rq` — a completion finishing an in-flight request
  (`blk_mq_end_request` → `blk_queue_exit`); no quiesce guard.
* `timeout_scan` — `blk_mq_timeout_work`: guarded only by
  `percpu_ref_tryget` (fails when the counter is both killed and
  drained); no quiesce guard.
* `quiesce_set` — `blk_mq_quiesce_queue_nowait`: set QUEUE_FLAG_QUIESCED.
* `quiesce_ret` — the synchronize step of `blk_mq_quiesce_queue`: may
  return only with the flag set and no dispatch section active.
* `unquiesce` — `blk_mq_unquiesce_queue`: clear the flag.
* `run_hw_queue_dispatch` — `blk_mq_run_hw_queue` observing
  `!blk_queue_quiesced(q)` inside its read-side section and starting a
  dispatch (`need_run` true); forbidden while quiesced.
* `run_hw_queue_decline` — `blk_mq_run_hw_queue` observing the quiesced
  flag: returns false and touches nothing.
* `dispatch_end` — the matching `hctx_unlock` ending a dispatch
  section. -/
inductive qstep : qstate → qev → qstate → Prop where
  | alloc_enter (s : qstate) :
      s.usage_killed = false →
      qstep s qev.alloc_enter { s with usage_count := s.usage_count + 1 }
  | alloc_block (s : qstate) :
      s.usage_killed = true →
      qstep s qev.alloc_block { s with blocked_alloc := s.blocked_alloc + 1 }
  | freeze_start (s : qstate) :
      qstep s qev.freeze_start
        { s with
          mq_freeze_depth := s.mq_freeze_depth + 1,
          usage_killed := if s.mq_freeze_depth + 1 = 1 then true
                          else s.usage_killed }
  | freeze_wait_ret (s : qstate) :
      s.usage_count = 0 →
      qstep s qev.freeze_wait_ret s
  | unfreeze (s : qstate) :
      qstep s qev.unfreeze
        { s with
          mq_freeze_depth := s.mq_freeze_depth - 1,
          usage_killed := if s.mq_freeze_depth - 1 = 0 then false
                          else s.usage_killed,
          blocked_alloc := if s.mq_freeze_depth - 1 = 0 then 0
                           else s.blocked_alloc,
          woken := if s.mq_freeze_depth - 1 = 0 then
                     s.woken + s.blocked_alloc
                   else s.woken }
  | complete_rq (s : qstate) :
      0 < s.usage_count →
      qstep s qev.complete_rq
        { s with
          usage_count := s.usage_count - 1,
          completions := s.completions + 1 }
  | timeout_scan (s : qstate) :
      ¬(s.usage_killed = true ∧ s.usage_count = 0) →
      qstep s qev.timeout_scan
        { s with timeout_scans := s.timeout_scans + 1 }
  | quiesce_set (s : qstate) :
      qstep s qev.quiesce_set { s with quiesced := true }
  | quiesce_ret (s : qstate) :
      s.quiesced = true →
      s.active_dispatch = [] →
      qstep s qev.quiesce_ret s
  | unquiesce (s : qstate) :
      qstep s qev.unquiesce { s with quiesced := false }
  | run_hw_queue_dispatch (s : qstate) :
      s.quiesced = false →
      qstep s qev.run_hw_queue_dispatch
        { s with
          active_dispatch := s.next_sid :: s.active_dispatch,
          next_sid := s.next_sid + 1,
          dispatches_started := s.dispatches_started + 1 }
  | run_hw_queue_decline (s : qstate) :
      s.quiesced = true →
      qstep s qev.run_hw_queue_decline s
  | dispatch_end (s : qstate) (sid : Nat) :
      sid ∈ s.active_dispatch →
      qstep s (qev.dispatch_end sid)
        { s with active_dispatch := s.active_dispatch.erase sid }

/-- The freshly attached queue: depth 0, live usage counter, nothing in
flight, not quiesced. -/
def qinit : qstate :=
  ⟨0, false, 0, false, [], 0, 0, 0, 0, 0, 0⟩

/-- States the protocol can reach from `qinit`. -/
inductive qreachable : qstate → Prop where
  | init : qreachable qinit
  | step {s : qstate} {e : qev} {s' : qstate} :
      qreachable s → qstep s e s' → qreachable s'

/-- One protocol step preserves "the usage counter is killed exactly when
the freeze depth is positive". -/
theorem qstep_killed_iff (s : qstate) (e : qev) (s' : qstate)
    (hs : qstep s e s')
    (ih : s.usage_killed = decide (0 < s.mq_freeze_depth)) :
    s'.usage_killed = decide (0 < s'.mq_freeze_depth) := by
  cases hs with
  | alloc_enter h => simpa using ih
  | alloc_block h => simpa using ih
  | freeze_start =>
    simp only []
    by_cases h1 : s.mq_freeze_depth + 1 = 1
    · rw [if_pos h1]
      have h2 : (0 : Int) < s.mq_freeze_depth + 1 := by omega
      simp [h2]
    · rw [if_neg h1]
      rw [ih]
      by_cases h2 : (0 : Int) < s.mq_freeze_depth
      · have h3 : (0 : Int) < s.mq_freeze_depth + 1 := by omega
        simp [h2, h3]
      · have h3 : ¬((0 : Int) < s.mq_freeze_depth + 1) := by omega
        simp [h2, h3]
  | freeze_wait_ret h => exact ih
  | unfreeze =>
    simp only []
    by_cases h1 : s.mq_freeze_depth - 1 = 0
    · rw [if_pos h1]
      have h2 : ¬((0 : Int) < s.mq_freeze_depth - 1) := by omega
      simp [h2]
    · rw [if_neg h1]
      rw [ih]
      by_cases h2 : (0 : Int) < s.mq_freeze_depth
      · by_cases h3 : (0 : Int) < s.mq_freeze_depth - 1
        · simp [h2, h3]
        · exact absurd (by omega : s.mq_freeze_depth - 1 = 0) h1
      · have h3 : ¬((0 : Int) < s.mq_freeze_depth - 1) := by omega
        simp [h2, h3]
  | complete_rq h => simpa using ih
  | timeout_scan h => simpa using ih
  | quiesce_set => simpa using ih
  | quiesce_ret h1 h2 => exact ih
  | unquiesce => simpa using ih
  | run_hw_queue_dispatch h => simpa using ih
  | run_hw_queue_decline h => exact ih
  | dispatch_end sid h => simpa using ih

/-- In every reachable state the usage counter is killed exactly when the
freeze depth is positive. -/
theorem qreachable_killed_iff (s : qstate) (h : qreachable s) :
    s.usage_killed = decide (0 < s.mq_freeze_depth) := by
  induction h with
  | init => rfl
  | step hr hs ih => exact qstep_killed_iff _ _ _ hs ih

/-- Claim C4: freeze is a re-entrant counter — while the depth is
positive no allocation can be admitted (the admission step is disabled
and allocators block instead), the freeze wait returns only once the
in-flight count has drained to zero, starting a freeze increments the
depth and keeps admission off, and the unfreeze that brings the depth
back to zero restores admission and wakes every blocked allocator. -/
theorem blk_mq_freeze_protocol_spec (s : qstate) (h : qreachable s) :
    (0 < s.mq_freeze_depth →
      (∀ s', ¬ qstep s qev.alloc_enter s') ∧
      (∃ s', qstep s qev.alloc_block s')) ∧
    (∀ s', qstep s qev.freeze_wait_ret s' → s'.usage_count = 0) ∧
    (∀ s', qstep s qev.freeze_start s' →
      s'.mq_freeze_depth = s.mq_freeze_depth + 1 ∧
      (0 < s'.mq_freeze_depth → s'.usage_killed = true)) ∧
    (∀ s', qstep s qev.unfreeze s' →
      s'.mq_freeze_depth = s.mq_freeze_depth - 1 ∧
      (s.mq_freeze_depth = 1 →
        s'.usage_killed = false ∧ s'.blocked_alloc = 0 ∧
        s'.woken = s.woken + s.blocked_alloc)) := by
  refine ⟨?_, ?_, ?_, ?_⟩
  · intro hd
    constructor
    · intro s' hstep
      cases hstep with
      | alloc_enter hg =>
        rw [qreachable_killed_iff s h] at hg
        simp [hd] at hg
    · refine ⟨_, qstep.alloc_block s ?_⟩
      rw [qreachable_killed_iff s h]
      simp [hd]
  · intro s' hstep
    cases hstep with
    | freeze_wait_ret hg => exact hg
  · intro s' hstep
    cases hstep with
    | freeze_start =>
      refine ⟨rfl, ?_⟩
      intro hd'
      simp only [] at hd' ⊢
      by_cases h1 : s.mq_freeze_depth + 1 = 1
      · rw [if_pos h1]
      · rw [if_neg h1]
        rw [qreachable_killed_iff s h]
        simp only [decide_eq_true_eq]
        omega
  · intro s' hstep
    cases hstep with
    | unfreeze =>
      refine ⟨rfl, ?_⟩
      intro h1
      have h0 : s.mq_freeze_depth - 1 = 0 := by omega
      refine ⟨?_, ?_, ?_⟩ <;> simp only [] <;> rw [if_pos h0]

/-- Witness for C4 at the concrete state reached by one `freeze_start`
from the initial state: admission is disabled and blocking is enabled. -/
theorem blk_mq_freeze_protocol_spec_witness :
    (∀ s', ¬ qstep ⟨1, true, 0, false, [], 0, 0, 0, 0, 0, 0⟩
      qev.alloc_enter s') ∧
    (∃ s', qstep ⟨1, true, 0, false, [], 0, 0, 0, 0, 0, 0⟩
      qev.alloc_block s') := by
  have hreach : qreachable ⟨1, true, 0, false, [], 0, 0, 0, 0, 0, 0⟩ :=
    qreachable.step qreachable.init (qstep.freeze_start qinit)
  exact (blk_mq_freeze_protocol_spec _ hreach).1 (by decide)

/-- Claim C5: in any reachable quiesced state no queue run may start a
dispatch (the run step is disabled and the declining run is a no-op),
completions and timeout scans remain enabled untouched by the flag,
setting the flag drains nothing in flight, and the quiesce synchronize
step returns only once every dispatch section already past the check has
finished. -/
theorem blk_mq_quiesce_protocol_spec (s : qstate) (_h : qreachable s)
    (hq : s.quiesced = true) :
    (∀ s', ¬ qstep s qev.run_hw_queue_dispatch s') ∧
    qstep s qev.run_hw_queue_decline s ∧
    (0 < s.usage_count →
      qstep s qev.complete_rq
        { s with
          usage_count := s.usage_count - 1,
          completions := s.completions + 1 }) ∧
    (0 < s.usage_count →
      qstep s qev.timeout_scan
        { s with timeout_scans := s.timeout_scans + 1 }) ∧
    (∀ s', qstep s qev.quiesce_set s' →
      s'.usage_count = s.usage_count ∧ s'.quiesced = true) ∧
    (∀ s', qstep s qev.quiesce_ret s' →
      s.active_dispatch = [] ∧ s' = s) := by
  refine ⟨?_, qstep.run_hw_queue_decline s hq, ?_, ?_, ?_, ?_⟩
  · intro s' hstep
    cases hstep with
    | run_hw_queue_dispatch hg =>
      rw [hq] at hg
      exact Bool.noConfusion hg
  · intro hc
    exact qstep.complete_rq s hc
  · intro hc
    refine qstep.timeout_scan s ?_
    intro hko
    omega
  · intro s' hstep
    cases hstep with
    | quiesce_set => exact ⟨rfl, rfl⟩
  · intro s' hstep
    cases hstep with
    | quiesce_ret h1 h2 => exact ⟨h2, rfl⟩

/-- Witness for C5 at the concrete quiesced state with one request in
flight (admit one request, then set the quiesce flag): dispatch is
disabled while the completion step stays enabled. -/
theorem blk_mq_quiesce_protocol_spec_witness :
    (∀ s', ¬ qstep ⟨0, false, 1, true, [], 0, 0, 0, 0, 0, 0⟩
      qev.run_hw_queue_dispatch s') ∧
    qstep ⟨0, false, 1, true, [], 0, 0, 0, 0, 0, 0⟩ qev.complete_rq
      ⟨0, false, 0, true, [], 0, 0, 0, 0, 1, 0⟩ := by
  have hreach : qreachable ⟨0, false, 1, true, [], 0, 0, 0, 0, 0, 0⟩ :=
    qreachable.step
      (qreachable.step qreachable.init (qstep.alloc_enter qinit rfl))
      (qstep.quiesce_set _)
  have h := blk_mq_quiesce_protocol_spec _ hreach rfl
  exact ⟨h.1, h.2.2.1 (by decide)⟩
